import Mathlib

/-!
Formal model of the invoice/payment/visit consistency core of the
segese_backend repository.

The definitions below are a shallow embedding of:
  * `invoiceSchema.methods.calculateTotals` / `_updatePaymentStatus` /
    `payItems` / `addPayment` / `checkOverdueStatus` and the pre-save hook
    (Invoice model);
  * `BillingService.createInvoice` / `addItemsToInvoice` / `processRefund`
    and the private visit-update helpers (services/billingService.js);
  * the `updateVisitOrderStatuses` helper of routes/billing.js.

Money is modelled with rationals (the source uses JS numbers and demands
exact, drift-free recomputation).  Timestamps are integers.  Mongo object
ids are natural numbers.
-/

namespace Segese

/-- Item types of invoice line items (`items.type` enum). -/
inductive ItemType
  | consultation
  | procedureT
  | medication
  | lab_test
  | imaging
  | room_charge
  | equipment
  | other
deriving DecidableEq, Repr

/-- Discount/tax kind (`discountType` / `taxType` enum). -/
inductive AdjKind
  | percentage
  | fixed
deriving DecidableEq, Repr

/-- Invoice lifecycle status enum.  `partly` models the source's
in-part-paid status string. -/
inductive InvStatus
  | draft
  | pending
  | partly
  | paid
  | overdue
  | cancelled
  | refunded
deriving DecidableEq, Repr

/-- Payment methods (`payments.method` enum). -/
inductive PayMethod
  | cash
  | credit_card
  | debit_card
  | mobile_money
  | bank_transfer
  | insurance
deriving DecidableEq, Repr

/-- An invoice line item (`invoiceSchema.items` sub-document). -/
structure Item where
  itype : ItemType := .other
  descr : String := ""
  quantity : ℚ := 1
  unitPrice : ℚ := 0
  discount : ℚ := 0
  discountType : AdjKind := .fixed
  tax : ℚ := 0
  taxType : AdjKind := .percentage
  total : ℚ := 0
  coveredByInsurance : Bool := false
  insuranceApproved : Bool := false
  paid : Bool := false
  paidAt : Option ℤ := none
  paymentId : Option ℕ := none
deriving DecidableEq, Repr

instance : Inhabited Item := ⟨{}⟩

/-- A payment-ledger entry (`invoiceSchema.payments` sub-document);
refunds are negative amounts. -/
structure PaymentEntry where
  amount : ℚ
  method : PayMethod
  paidAt : ℤ
  reference : String := ""
  notes : String := ""
  itemIndices : List ℕ := []
deriving DecidableEq, Repr

/-- Insurance-coverage sub-document status enum. -/
inductive CovStatus
  | pending
  | approved
  | partly
  | rejected
  | processing
deriving DecidableEq, Repr

/-- The `insuranceCoverage` block of an invoice. -/
structure Coverage where
  provider : ℕ := 0
  policyNumber : String := ""
  coverageAmount : ℚ := 0
  approvalCode : String := ""
  claimNumber : String := ""
  covStatus : CovStatus := .pending
deriving DecidableEq, Repr

/-- The Invoice aggregate. -/
structure Invoice where
  patient : ℕ := 0
  visit : Option ℕ := none
  status : InvStatus := .pending
  items : List Item := []
  payments : List PaymentEntry := []
  subtotal : ℚ := 0
  totalDiscount : ℚ := 0
  totalTax : ℚ := 0
  totalAmount : ℚ := 0
  insuranceCoverage : Option Coverage := none
  patientResponsibility : ℚ := 0
  amountPaid : ℚ := 0
  balanceDue : ℚ := 0
  dueDate : ℤ := 0
  paidDate : Option ℤ := none
deriving DecidableEq, Repr

instance : Inhabited Invoice := ⟨{}⟩

/-- `itemAt items i` is the `i`-th item (default item out of range),
mirroring JS array indexing in the guarded loops of the source. -/
def itemAt (items : List Item) (i : ℕ) : Item := items.getD i default

/-- Per-item pre-discount subtotal: `quantity * unitPrice`. -/
def itemSubtotalOf (it : Item) : ℚ := it.quantity * it.unitPrice

/-- Per-item discount amount (`calculateTotals`, discount step). -/
def discountOf (it : Item) : ℚ :=
  if it.discountType = .percentage then itemSubtotalOf it * it.discount / 100
  else it.discount

/-- Per-item tax amount (`calculateTotals`, tax step): percentage tax is
applied to the after-discount amount. -/
def taxOf (it : Item) : ℚ :=
  if it.taxType = .percentage then (itemSubtotalOf it - discountOf it) * it.tax / 100
  else it.tax

/-- Per-item total: `afterDiscount + tax` (`item.total` as recomputed by
`calculateTotals`). -/
def itemTotalOf (it : Item) : ℚ := (itemSubtotalOf it - discountOf it) + taxOf it

/-- Rewrite an item's cached `total` with the calculator's value. -/
def recalcItem (it : Item) : Item := { it with total := itemTotalOf it }

/-- Sum of the payment ledger (`payments.reduce((s, p) => s + p.amount, 0)`). -/
def paymentsSum (ps : List PaymentEntry) : ℚ := (ps.map (fun p => p.amount)).sum

/-- Insurance-coverage accumulator of `calculateTotals`: sums the freshly
recomputed totals of items that are covered and approved. -/
def insSumOf (items : List Item) : ℚ :=
  ((items.filter (fun it => it.coveredByInsurance && it.insuranceApproved)).map
    itemTotalOf).sum

/-- The pure totals part of `invoiceSchema.methods.calculateTotals`
(everything before the `_updatePaymentStatus()` call). -/
def computeTotals (inv : Invoice) : Invoice :=
  let sub := (inv.items.map itemSubtotalOf).sum
  let disc := (inv.items.map discountOf).sum
  let tax := (inv.items.map taxOf).sum
  let amt := sub - disc + tax
  let insSum := insSumOf inv.items
  let covAndResp : Option Coverage × ℚ :=
    match inv.insuranceCoverage with
    | some c =>
        if c.coverageAmount ≠ 0 then
          (some { c with coverageAmount := min insSum c.coverageAmount },
           amt - min insSum c.coverageAmount)
        else (some c, amt)
    | none => (none, amt)
  let ap := paymentsSum inv.payments
  { inv with
    items := inv.items.map recalcItem
    subtotal := sub
    totalDiscount := disc
    totalTax := tax
    totalAmount := amt
    insuranceCoverage := covAndResp.1
    patientResponsibility := covAndResp.2
    amountPaid := ap
    balanceDue := amt - ap }

/-- Mark an item paid at `now`. -/
def markItem (now : ℤ) (it : Item) : Item := { it with paid := true, paidAt := some now }

/-- Mark one item paid unless it already is (`_updatePaymentStatus`,
rule-3 reconciliation body). -/
def forcePaid (now : ℤ) (it : Item) : Item := if it.paid then it else markItem now it

/-- Mark every still-unpaid item paid (`_updatePaymentStatus`, rule-3
reconciliation loop). -/
def forceAllPaid (now : ℤ) (items : List Item) : List Item :=
  items.map (forcePaid now)

/-- `invoiceSchema.methods._updatePaymentStatus`. -/
def updatePaymentStatus (now : ℤ) (inv : Invoice) : Invoice :=
  if inv.balanceDue ≤ 0 ∧ inv.amountPaid > 0 then
    { inv with
      status := .paid
      paidDate := match inv.paidDate with | some d => some d | none => some now
      items := forceAllPaid now inv.items }
  else if inv.amountPaid > 0 ∧ inv.balanceDue > 0 then
    { inv with status := .partly }
  else if inv.status = .pending ∧ inv.dueDate < now then
    { inv with status := .overdue }
  else if inv.amountPaid = 0 ∧ inv.status = .paid then
    { inv with status := .pending, paidDate := none }
  else inv

/-- `invoiceSchema.methods.calculateTotals`: recompute all derived totals
then run the centralized status update. -/
def calculateTotals (now : ℤ) (inv : Invoice) : Invoice :=
  updatePaymentStatus now (computeTotals inv)

/-- `invoiceSchema.methods.checkOverdueStatus`. -/
def checkOverdueStatus (now : ℤ) (inv : Invoice) : Invoice :=
  if inv.status = .pending ∧ inv.dueDate < now then { inv with status := .overdue }
  else inv

/-- The invoice pre-save hook for a document whose items or payments were
modified: `calculateTotals()` then `checkOverdueStatus()`. -/
def saveHook (now : ℤ) (inv : Invoice) : Invoice :=
  checkOverdueStatus now (calculateTotals now inv)

/-- The marking pass of `invoiceSchema.methods.payItems`: walk the
requested indices, marking each in-range not-yet-paid item paid and
accumulating its cached total. -/
def payItemsMark (now : ℤ) (items : List Item) : List ℕ → List Item × ℚ
  | [] => (items, 0)
  | i :: rest =>
    match items[i]? with
    | some it =>
        if it.paid then payItemsMark now items rest
        else
          let res := payItemsMark now (items.set i (markItem now it)) rest
          (res.1, it.total + res.2)
    | none => payItemsMark now items rest

/-- The paymentId-stamping pass of `payItems`: every in-range requested
index receives the shared payment id. -/
def stampPaymentId (pid : ℕ) (items : List Item) : List ℕ → List Item
  | [] => items
  | i :: rest =>
    match items[i]? with
    | some it => stampPaymentId pid (items.set i { it with paymentId := some pid }) rest
    | none => stampPaymentId pid items rest

/-- Payment details passed into `payItems` (method/reference fall back to
defaults exactly as the source does). -/
structure PaymentInfo where
  method : Option PayMethod := none
  paidBy : ℕ := 0
  reference : Option String := none
  notes : String := ""
deriving DecidableEq, Repr

/-- `invoiceSchema.methods.payItems`: mark requested items paid, and —
unless nothing was actually charged — append one ledger entry carrying the
requested indices, stamp the shared payment id, and rerun
`calculateTotals`.  Returns the updated invoice and the amount charged. -/
def payItems (now : ℤ) (pid : ℕ) (idxs : List ℕ) (pinfo : PaymentInfo)
    (inv : Invoice) : Invoice × ℚ :=
  let marked := payItemsMark now inv.items idxs
  if marked.2 = 0 then ({ inv with items := marked.1 }, 0)
  else
    let entry : PaymentEntry :=
      { amount := marked.2
        method := pinfo.method.getD .cash
        paidAt := now
        reference := pinfo.reference.getD
          ("Payment for " ++ toString idxs.length ++ " item(s)")
        notes := pinfo.notes
        itemIndices := idxs }
    let inv2 := { inv with
      items := stampPaymentId pid marked.1 idxs
      payments := inv.payments ++ [entry] }
    (calculateTotals now inv2, marked.2)

/-- The greedy walk of `invoiceSchema.methods.addPayment`: in item order,
while the remaining amount is positive, fully pay each unpaid item the
remainder covers; break at the first unpaid item it cannot cover.
Returns the updated item list and the (absolute) indices fully paid. -/
def addPaymentGo (now : ℤ) (r : ℚ) : List Item → List Item × List ℕ
  | [] => ([], [])
  | it :: rest =>
    if r ≤ 0 then (it :: rest, [])
    else if it.paid then
      let res := addPaymentGo now r rest
      (it :: res.1, res.2.map (fun j => j + 1))
    else if it.total ≤ r then
      let res := addPaymentGo now (r - it.total) rest
      (markItem now it :: res.1, 0 :: res.2.map (fun j => j + 1))
    else (it :: rest, [])

/-- `invoiceSchema.methods.addPayment` (legacy unattributed payment):
greedy walk, then one ledger entry of the full amount carrying the fully
paid indices, then `calculateTotals`. -/
def addPayment (now : ℤ) (amount : ℚ) (inv : Invoice) : Invoice :=
  let walk := addPaymentGo now amount inv.items
  let entry : PaymentEntry :=
    { amount := amount
      method := .cash
      paidAt := now
      reference := "Legacy payment"
      itemIndices := walk.2 }
  calculateTotals now { inv with items := walk.1, payments := inv.payments ++ [entry] }

/-- The invoice-ledger side of `BillingService.processRefund`: push one
negative entry and save (the pre-save hook reruns settlement). -/
def appendRefund (now : ℤ) (method : PayMethod) (r : ℚ) (refNote : String)
    (inv : Invoice) : Invoice :=
  saveHook now
    { inv with payments := inv.payments ++
        [{ amount := -r, method := method, paidAt := now, reference := refNote }] }

/-- `BillingService.addItemsToInvoice`: append the new items (pre-marked
paid/covered when the patient is insured), add the matching insurance
ledger entry and fold the total into the coverage amount, then save. -/
def addItemsToInvoice (now : ℤ) (newItems : List Item) (hasInsurance : Bool)
    (inv : Invoice) : Invoice :=
  let start := inv.items.length
  let added := newItems.map (fun it =>
    { it with paid := hasInsurance
              paidAt := if hasInsurance then some now else none
              coveredByInsurance := hasInsurance
              insuranceApproved := hasInsurance })
  let inv1 := { inv with items := inv.items ++ added }
  let inv2 :=
    if hasInsurance then
      let t := (newItems.map (fun it => it.total)).sum
      { inv1 with
        payments := inv1.payments ++
          [{ amount := t, method := .insurance, paidAt := now
             reference := "Insurance payment for additional services"
             notes := "Automatic insurance coverage"
             itemIndices := (List.range newItems.length).map (fun j => j + start) }]
        insuranceCoverage := inv1.insuranceCoverage.map
          (fun c => { c with coverageAmount := c.coverageAmount + t }) }
    else inv1
  saveHook now inv2

/-- Request payload of invoice creation. -/
structure CreateData where
  patient : ℕ := 0
  visit : Option ℕ := none
  items : List Item := []
deriving DecidableEq, Repr

/-- The fresh invoice document built by `BillingService.createInvoice`
before any totals run. -/
def buildInvoice (dueDate : ℤ) (data : CreateData) : Invoice :=
  { patient := data.patient
    visit := data.visit
    items := data.items
    payments := []
    status := .pending
    dueDate := dueDate }

/-- Mark one item paid and insurance-covered/approved (the per-item body
of the insurance fast path of `BillingService.createInvoice`). -/
def coverItem (now : ℤ) (it : Item) : Item :=
  { it with paid := true, paidAt := some now
            coveredByInsurance := true, insuranceApproved := true }

/-- The insurance fast path of `BillingService.createInvoice` (spec name
`applyInsuranceAutoCoverage`): mark all items paid/covered/approved, push
one insurance ledger entry over the full total, set the coverage block
with a generated approval code, and short-circuit the status to paid. -/
def applyInsuranceAutoCoverage (now : ℤ) (providerId : ℕ) (policyNo : String)
    (inv : Invoice) : Invoice :=
  { inv with
    items := inv.items.map (coverItem now)
    payments := inv.payments ++
      [{ amount := inv.totalAmount, method := .insurance, paidAt := now
         reference := "Insurance payment - " ++ policyNo
         notes := "100% insurance coverage"
         itemIndices := List.range inv.items.length }]
    insuranceCoverage := some
      { provider := providerId
        policyNumber := policyNo
        coverageAmount := inv.totalAmount
        approvalCode := "AUTO-" ++ toString now
        covStatus := .approved }
    status := .paid
    amountPaid := inv.totalAmount
    balanceDue := 0
    paidDate := some now }

/-- `BillingService.createInvoice` on a fresh (non-duplicate) request:
build, run the calculator, apply the insurance fast path when the patient
has a provider, then save (pre-save hook reruns settlement). -/
def createInvoiceCore (now dueDate : ℤ) (hasInsurance : Bool) (providerId : ℕ)
    (policyNo : String) (data : CreateData) : Invoice :=
  let inv0 := calculateTotals now (buildInvoice dueDate data)
  let inv1 :=
    if hasInsurance then applyInsuranceAutoCoverage now providerId policyNo inv0
    else inv0
  saveHook now inv1

/-- `Invoice.findOne({ visit })` over a modelled store. -/
def findByVisit (db : List Invoice) (vid : ℕ) : Option Invoice :=
  db.find? (fun inv => decide (inv.visit = some vid))

/-- `BillingService.createInvoice` with the duplicate-suppression check:
an existing invoice for the visit is returned as-is and nothing new is
persisted; otherwise the new invoice is created and stored. -/
def createInvoiceService (now dueDate : ℤ) (hasInsurance : Bool) (providerId : ℕ)
    (policyNo : String) (data : CreateData) (db : List Invoice) :
    List Invoice × Invoice :=
  match data.visit with
  | some vid =>
    match findByVisit db vid with
    | some existing => (db, existing)
    | none =>
      let inv := createInvoiceCore now dueDate hasInsurance providerId policyNo data
      (db ++ [inv], inv)
  | none =>
    let inv := createInvoiceCore now dueDate hasInsurance providerId policyNo data
    (db ++ [inv], inv)

/-- Visit workflow status enum. -/
inductive VisitStatus
  | pendingPayment
  | inQueue
  | inProgress
  | completed
deriving DecidableEq, Repr

/-- Clinical order payment sub-status; `pendingPayment` models the source
string "Pending Payment" and `ready` models "Pending". -/
inductive OrderStatus
  | pendingPayment
  | ready
  | inProgress
  | completed
  | cancelled
  | dispensed
deriving DecidableEq, Repr

/-- One clinical order record (lab / radiology / prescription sub-document;
only the fields the projector reads). -/
structure COrder where
  status : OrderStatus := .ready
  created : ℤ := 0
deriving DecidableEq, Repr

instance : Inhabited COrder := ⟨{}⟩

/-- The Visit record (fields the billing flow touches). -/
structure Visit where
  status : VisitStatus := .pendingPayment
  consultationFeePaid : Bool := false
  consultationFeeAmount : ℚ := 0
  invoice : Option ℕ := none
  labOrders : List COrder := []
  radiologyOrders : List COrder := []
  prescriptions : List COrder := []
deriving DecidableEq, Repr

/-- `BillingService._updateVisitAfterInvoiceCreation`. -/
def updateVisitAfterInvoiceCreation (invId : ℕ) (inv : Invoice)
    (hasInsurance : Bool) (v : Visit) : Visit :=
  let fee :=
    ((inv.items.find? (fun it => decide (it.itype = .consultation))).map
      (fun it => it.total)).getD 0
  if hasInsurance then
    { v with invoice := some invId, consultationFeeAmount := fee
             status := .inQueue, consultationFeePaid := true }
  else
    { v with invoice := some invId, consultationFeeAmount := fee
             status := .pendingPayment, consultationFeePaid := false }

/-- Pair each order with its array index, starting at `i` (the
`.map((order, index) => ({ order, index }))` step of the projector). -/
def indexedFrom (i : ℕ) : List COrder → List (ℕ × COrder)
  | [] => []
  | o :: os => (i, o) :: indexedFrom (i + 1) os

/-- Stable insertion keeping the list sorted by `created` descending
(the `.sort((a, b) => b.createdAt - a.createdAt)` step). -/
def insertDesc (p : ℕ × COrder) : List (ℕ × COrder) → List (ℕ × COrder)
  | [] => [p]
  | q :: qs =>
    if p.2.created < q.2.created then q :: insertDesc p qs else p :: q :: qs

/-- Stable sort by `created` descending. -/
def sortDesc (l : List (ℕ × COrder)) : List (ℕ × COrder) :=
  l.foldr insertDesc []

/-- Advance the order at index `i` to "Pending". -/
def setOrderReady (orders : List COrder) (i : ℕ) : List COrder :=
  match orders[i]? with
  | some o => orders.set i { o with status := .ready }
  | none => orders

/-- One type-block of `updateVisitOrderStatuses` (routes/billing.js):
among the orders currently in "Pending Payment", most recent first,
advance `min k pending` of them to "Pending", where `k` is the number of
paid items of the matching type. -/
def pendingIdx (orders : List COrder) : List (ℕ × COrder) :=
  (indexedFrom 0 orders).filter (fun p => decide (p.2.status = .pendingPayment))

/-- The indices picked by the `.slice(0, ordersToUpdate)` step: most recent
pending orders first, at most `k` of them. -/
def chosenIdx (k : ℕ) (orders : List COrder) : List ℕ :=
  ((sortDesc (pendingIdx orders)).take (min k (pendingIdx orders).length)).map
    (fun p => p.1)

def advanceOrders (k : ℕ) (orders : List COrder) : List COrder :=
  if k = 0 ∨ orders.isEmpty then orders
  else (chosenIdx k orders).foldl setOrderReady orders

/-- `updateVisitOrderStatuses` (routes/billing.js): per clinical order
array, a count-matched advance driven by the paid items of that type. -/
def updateVisitOrderStatuses (paidItems : List Item) (v : Visit) : Visit :=
  { v with
    labOrders := advanceOrders
      ((paidItems.filter (fun it => decide (it.itype = .lab_test))).length)
      v.labOrders
    radiologyOrders := advanceOrders
      ((paidItems.filter (fun it => decide (it.itype = .imaging))).length)
      v.radiologyOrders
    prescriptions := advanceOrders
      ((paidItems.filter (fun it => decide (it.itype = .medication))).length)
      v.prescriptions }

/-- The ledger invariant of the spec: the cached `amountPaid` equals the
ledger sum and `balanceDue` equals `totalAmount - amountPaid`. -/
def ledgerInvariant (inv : Invoice) : Prop :=
  inv.amountPaid = paymentsSum inv.payments ∧
  inv.balanceDue = inv.totalAmount - inv.amountPaid

instance (inv : Invoice) : Decidable (ledgerInvariant inv) := by
  unfold ledgerInvariant; infer_instance

/-! Basic facts about the settlement pass. -/

theorem computeTotals_payments (inv : Invoice) :
    (computeTotals inv).payments = inv.payments := rfl

theorem computeTotals_amountPaid (inv : Invoice) :
    (computeTotals inv).amountPaid = paymentsSum inv.payments := rfl

theorem computeTotals_ledgerInvariant (inv : Invoice) :
    ledgerInvariant (computeTotals inv) := by
  constructor <;> rfl

theorem updatePaymentStatus_payments (now : ℤ) (inv : Invoice) :
    (updatePaymentStatus now inv).payments = inv.payments := by
  unfold updatePaymentStatus
  split <;> [rfl; skip]
  split <;> [rfl; skip]
  split <;> [rfl; skip]
  split <;> rfl

theorem updatePaymentStatus_amountPaid (now : ℤ) (inv : Invoice) :
    (updatePaymentStatus now inv).amountPaid = inv.amountPaid := by
  unfold updatePaymentStatus
  split <;> [rfl; skip]
  split <;> [rfl; skip]
  split <;> [rfl; skip]
  split <;> rfl

theorem updatePaymentStatus_balanceDue (now : ℤ) (inv : Invoice) :
    (updatePaymentStatus now inv).balanceDue = inv.balanceDue := by
  unfold updatePaymentStatus
  split <;> [rfl; skip]
  split <;> [rfl; skip]
  split <;> [rfl; skip]
  split <;> rfl

theorem updatePaymentStatus_totalAmount (now : ℤ) (inv : Invoice) :
    (updatePaymentStatus now inv).totalAmount = inv.totalAmount := by
  unfold updatePaymentStatus
  split <;> [rfl; skip]
  split <;> [rfl; skip]
  split <;> [rfl; skip]
  split <;> rfl

theorem checkOverdueStatus_only_status (now : ℤ) (inv : Invoice) :
    (checkOverdueStatus now inv).payments = inv.payments ∧
    (checkOverdueStatus now inv).items = inv.items ∧
    (checkOverdueStatus now inv).amountPaid = inv.amountPaid ∧
    (checkOverdueStatus now inv).balanceDue = inv.balanceDue ∧
    (checkOverdueStatus now inv).totalAmount = inv.totalAmount := by
  unfold checkOverdueStatus
  split <;> exact ⟨rfl, rfl, rfl, rfl, rfl⟩

theorem calculateTotals_ledgerInvariant (now : ℤ) (inv : Invoice) :
    ledgerInvariant (calculateTotals now inv) := by
  have h := computeTotals_ledgerInvariant inv
  unfold calculateTotals ledgerInvariant
  rw [updatePaymentStatus_payments, updatePaymentStatus_amountPaid,
    updatePaymentStatus_balanceDue, updatePaymentStatus_totalAmount]
  exact h

theorem saveHook_ledgerInvariant (now : ℤ) (inv : Invoice) :
    ledgerInvariant (saveHook now inv) := by
  have h := calculateTotals_ledgerInvariant now inv
  have h2 := checkOverdueStatus_only_status now (calculateTotals now inv)
  unfold saveHook ledgerInvariant
  rw [h2.1, h2.2.2.1, h2.2.2.2.1, h2.2.2.2.2]
  exact h

/-! Pointwise preservation of the financial projections under the item
transformations of the source. -/

theorem itemSubtotalOf_recalc (it : Item) :
    itemSubtotalOf (recalcItem it) = itemSubtotalOf it := rfl

theorem discountOf_recalc (it : Item) : discountOf (recalcItem it) = discountOf it := rfl

theorem taxOf_recalc (it : Item) : taxOf (recalcItem it) = taxOf it := rfl

theorem itemTotalOf_recalc (it : Item) : itemTotalOf (recalcItem it) = itemTotalOf it := rfl

theorem total_recalc (it : Item) : (recalcItem it).total = itemTotalOf it := rfl

theorem itemSubtotalOf_force (now : ℤ) (it : Item) :
    itemSubtotalOf (forcePaid now it) = itemSubtotalOf it := by
  unfold forcePaid; split <;> rfl

theorem discountOf_force (now : ℤ) (it : Item) :
    discountOf (forcePaid now it) = discountOf it := by
  unfold forcePaid; split <;> rfl

theorem taxOf_force (now : ℤ) (it : Item) :
    taxOf (forcePaid now it) = taxOf it := by
  unfold forcePaid; split <;> rfl

theorem itemTotalOf_force (now : ℤ) (it : Item) :
    itemTotalOf (forcePaid now it) = itemTotalOf it := by
  unfold forcePaid; split <;> rfl

theorem total_force (now : ℤ) (it : Item) :
    (forcePaid now it).total = it.total := by
  unfold forcePaid; split <;> rfl

theorem covered_force (now : ℤ) (it : Item) :
    (forcePaid now it).coveredByInsurance = it.coveredByInsurance := by
  unfold forcePaid; split <;> rfl

theorem approved_force (now : ℤ) (it : Item) :
    (forcePaid now it).insuranceApproved = it.insuranceApproved := by
  unfold forcePaid; split <;> rfl

theorem paid_force (now : ℤ) (it : Item) : (forcePaid now it).paid = true := by
  unfold forcePaid markItem; split
  · assumption
  · rfl

theorem paymentId_force (now : ℤ) (it : Item) :
    (forcePaid now it).paymentId = it.paymentId := by
  unfold forcePaid; split <;> rfl

theorem forcePaid_of_paid (now : ℤ) (it : Item) (h : it.paid = true) :
    forcePaid now it = it := by
  unfold forcePaid; rw [h]; rfl

/-- Generic: mapping an item transformation that preserves a projection
does not change the projected list. -/
theorem map_comp_eq {β : Type} (g : Item → β) (f : Item → Item)
    (h : ∀ it, g (f it) = g it) (items : List Item) :
    (items.map f).map g = items.map g := by
  induction items with
  | nil => rfl
  | cons a l ih =>
    simp only [List.map_cons]
    rw [h a, ih]

theorem insSumOf_map (f : Item → Item)
    (hc : ∀ it, (f it).coveredByInsurance = it.coveredByInsurance)
    (ha : ∀ it, (f it).insuranceApproved = it.insuranceApproved)
    (ht : ∀ it, itemTotalOf (f it) = itemTotalOf it) (items : List Item) :
    insSumOf (items.map f) = insSumOf items := by
  induction items with
  | nil => rfl
  | cons a l ih =>
    simp only [insSumOf, List.map_cons, List.filter_cons] at *
    rw [hc a, ha a]
    by_cases hcov : (a.coveredByInsurance && a.insuranceApproved) = true
    · simp only [hcov, if_true, List.map_cons, List.sum_cons, ht a, ih]
    · simp only [hcov, if_false, Bool.false_eq_true, ih]

/-! Frame lemmas for the status update and the overdue check. -/

theorem updatePaymentStatus_frame (now : ℤ) (inv : Invoice) :
    (updatePaymentStatus now inv).subtotal = inv.subtotal ∧
    (updatePaymentStatus now inv).totalDiscount = inv.totalDiscount ∧
    (updatePaymentStatus now inv).totalTax = inv.totalTax ∧
    (updatePaymentStatus now inv).insuranceCoverage = inv.insuranceCoverage ∧
    (updatePaymentStatus now inv).patientResponsibility = inv.patientResponsibility ∧
    (updatePaymentStatus now inv).dueDate = inv.dueDate ∧
    (updatePaymentStatus now inv).visit = inv.visit ∧
    (updatePaymentStatus now inv).patient = inv.patient := by
  unfold updatePaymentStatus
  split
  · exact ⟨rfl, rfl, rfl, rfl, rfl, rfl, rfl, rfl⟩
  split
  · exact ⟨rfl, rfl, rfl, rfl, rfl, rfl, rfl, rfl⟩
  split
  · exact ⟨rfl, rfl, rfl, rfl, rfl, rfl, rfl, rfl⟩
  split <;> exact ⟨rfl, rfl, rfl, rfl, rfl, rfl, rfl, rfl⟩

theorem updatePaymentStatus_items (now : ℤ) (inv : Invoice) :
    (updatePaymentStatus now inv).items =
      (if inv.balanceDue ≤ 0 ∧ inv.amountPaid > 0 then forceAllPaid now inv.items
       else inv.items) := by
  unfold updatePaymentStatus
  by_cases h : inv.balanceDue ≤ 0 ∧ inv.amountPaid > 0
  · rw [if_pos h, if_pos h]
  · rw [if_neg h, if_neg h]
    split
    · rfl
    split
    · rfl
    split <;> rfl

theorem checkOverdueStatus_frame (now : ℤ) (inv : Invoice) :
    (checkOverdueStatus now inv).subtotal = inv.subtotal ∧
    (checkOverdueStatus now inv).totalDiscount = inv.totalDiscount ∧
    (checkOverdueStatus now inv).totalTax = inv.totalTax ∧
    (checkOverdueStatus now inv).insuranceCoverage = inv.insuranceCoverage ∧
    (checkOverdueStatus now inv).patientResponsibility = inv.patientResponsibility ∧
    (checkOverdueStatus now inv).paidDate = inv.paidDate := by
  unfold checkOverdueStatus
  split <;> exact ⟨rfl, rfl, rfl, rfl, rfl, rfl⟩

/-! Field formulas for the pure totals pass. -/

theorem computeTotals_items (inv : Invoice) :
    (computeTotals inv).items = inv.items.map recalcItem := rfl

theorem computeTotals_subtotal (inv : Invoice) :
    (computeTotals inv).subtotal = (inv.items.map itemSubtotalOf).sum := rfl

theorem computeTotals_totalDiscount (inv : Invoice) :
    (computeTotals inv).totalDiscount = (inv.items.map discountOf).sum := rfl

theorem computeTotals_totalTax (inv : Invoice) :
    (computeTotals inv).totalTax = (inv.items.map taxOf).sum := rfl

theorem computeTotals_totalAmount (inv : Invoice) :
    (computeTotals inv).totalAmount =
      (inv.items.map itemSubtotalOf).sum - (inv.items.map discountOf).sum +
        (inv.items.map taxOf).sum := rfl

theorem computeTotals_balanceDue (inv : Invoice) :
    (computeTotals inv).balanceDue =
      (computeTotals inv).totalAmount - paymentsSum inv.payments := rfl

theorem computeTotals_status (inv : Invoice) :
    (computeTotals inv).status = inv.status := rfl

theorem computeTotals_dueDate (inv : Invoice) :
    (computeTotals inv).dueDate = inv.dueDate := rfl

theorem computeTotals_paidDate (inv : Invoice) :
    (computeTotals inv).paidDate = inv.paidDate := rfl

theorem forceAllPaid_all_paid (now : ℤ) (items : List Item) :
    ∀ it ∈ forceAllPaid now items, it.paid = true := by
  intro it hmem
  unfold forceAllPaid at hmem
  obtain ⟨x, _, hx⟩ := List.mem_map.mp hmem
  rw [← hx]
  exact paid_force now x

/-- Generic: mapping `f` then projecting with `g` equals projecting with
`g2` directly, given a pointwise translation. -/
theorem map_comp_eq2 {β : Type} (g g2 : Item → β) (f : Item → Item)
    (h : ∀ it, g (f it) = g2 it) (items : List Item) :
    (items.map f).map g = items.map g2 := by
  induction items with
  | nil => rfl
  | cons a l ih =>
    simp only [List.map_cons]
    rw [h a, ih]

/-! Field formulas for a full settlement pass. -/

theorem calculateTotals_payments (now : ℤ) (inv : Invoice) :
    (calculateTotals now inv).payments = inv.payments := by
  unfold calculateTotals
  rw [updatePaymentStatus_payments]
  exact computeTotals_payments inv

theorem calculateTotals_amountPaid (now : ℤ) (inv : Invoice) :
    (calculateTotals now inv).amountPaid = paymentsSum inv.payments := by
  unfold calculateTotals
  rw [updatePaymentStatus_amountPaid]
  exact computeTotals_amountPaid inv

theorem calculateTotals_subtotal (now : ℤ) (inv : Invoice) :
    (calculateTotals now inv).subtotal = (inv.items.map itemSubtotalOf).sum := by
  unfold calculateTotals
  rw [(updatePaymentStatus_frame now (computeTotals inv)).1]
  exact computeTotals_subtotal inv

theorem calculateTotals_totalDiscount (now : ℤ) (inv : Invoice) :
    (calculateTotals now inv).totalDiscount = (inv.items.map discountOf).sum := by
  unfold calculateTotals
  rw [(updatePaymentStatus_frame now (computeTotals inv)).2.1]
  exact computeTotals_totalDiscount inv

theorem calculateTotals_totalTax (now : ℤ) (inv : Invoice) :
    (calculateTotals now inv).totalTax = (inv.items.map taxOf).sum := by
  unfold calculateTotals
  rw [(updatePaymentStatus_frame now (computeTotals inv)).2.2.1]
  exact computeTotals_totalTax inv

theorem calculateTotals_totalAmount (now : ℤ) (inv : Invoice) :
    (calculateTotals now inv).totalAmount =
      (inv.items.map itemSubtotalOf).sum - (inv.items.map discountOf).sum +
        (inv.items.map taxOf).sum := by
  unfold calculateTotals
  rw [updatePaymentStatus_totalAmount]
  exact computeTotals_totalAmount inv

theorem calculateTotals_balanceDue (now : ℤ) (inv : Invoice) :
    (calculateTotals now inv).balanceDue =
      (calculateTotals now inv).totalAmount - paymentsSum inv.payments := by
  unfold calculateTotals
  rw [updatePaymentStatus_balanceDue, updatePaymentStatus_totalAmount]
  exact computeTotals_balanceDue inv

/-- Projections of the settled item list, for projections untouched by
recalculation and by the rule-3 forcing. -/
theorem calculateTotals_items_map {β : Type} (g : Item → β) (now : ℤ)
    (hr : ∀ it, g (recalcItem it) = g it)
    (hf : ∀ it, g (forcePaid now it) = g it) (inv : Invoice) :
    (calculateTotals now inv).items.map g = inv.items.map g := by
  unfold calculateTotals
  rw [updatePaymentStatus_items]
  split
  · unfold forceAllPaid
    rw [computeTotals_items, map_comp_eq g _ hf, map_comp_eq g _ hr]
  · rw [computeTotals_items, map_comp_eq g _ hr]

/-- The settled item list carries the calculator's totals. -/
theorem calculateTotals_items_total (now : ℤ) (inv : Invoice) :
    (calculateTotals now inv).items.map (fun it => it.total) =
      inv.items.map itemTotalOf := by
  unfold calculateTotals
  rw [updatePaymentStatus_items]
  split
  · unfold forceAllPaid
    rw [computeTotals_items, map_comp_eq _ _ (total_force now),
      map_comp_eq2 _ _ _ total_recalc]
  · rw [computeTotals_items, map_comp_eq2 _ _ _ total_recalc]

/-- Claim C10: running the totals computation twice on the same input
produces identical output to running it once — per-item totals and the
aggregate subtotal/totalDiscount/totalTax/totalAmount (and the derived
amountPaid/balanceDue) do not drift. -/
theorem c10_recalculation_idempotent (now : ℤ) (inv : Invoice) :
    (calculateTotals now (calculateTotals now inv)).items.map (fun it => it.total) =
      (calculateTotals now inv).items.map (fun it => it.total) ∧
    (calculateTotals now (calculateTotals now inv)).subtotal =
      (calculateTotals now inv).subtotal ∧
    (calculateTotals now (calculateTotals now inv)).totalDiscount =
      (calculateTotals now inv).totalDiscount ∧
    (calculateTotals now (calculateTotals now inv)).totalTax =
      (calculateTotals now inv).totalTax ∧
    (calculateTotals now (calculateTotals now inv)).totalAmount =
      (calculateTotals now inv).totalAmount ∧
    (calculateTotals now (calculateTotals now inv)).amountPaid =
      (calculateTotals now inv).amountPaid ∧
    (calculateTotals now (calculateTotals now inv)).balanceDue =
      (calculateTotals now inv).balanceDue := by
  have hsub : (calculateTotals now inv).items.map itemSubtotalOf =
      inv.items.map itemSubtotalOf :=
    calculateTotals_items_map _ now itemSubtotalOf_recalc (itemSubtotalOf_force now) inv
  have hdisc : (calculateTotals now inv).items.map discountOf =
      inv.items.map discountOf :=
    calculateTotals_items_map _ now discountOf_recalc (discountOf_force now) inv
  have htax : (calculateTotals now inv).items.map taxOf = inv.items.map taxOf :=
    calculateTotals_items_map _ now taxOf_recalc (taxOf_force now) inv
  have htot : (calculateTotals now inv).items.map itemTotalOf =
      inv.items.map itemTotalOf :=
    calculateTotals_items_map _ now itemTotalOf_recalc (itemTotalOf_force now) inv
  have hpay := calculateTotals_payments now inv
  refine ⟨?_, ?_, ?_, ?_, ?_, ?_, ?_⟩
  · rw [calculateTotals_items_total, calculateTotals_items_total, htot]
  · rw [calculateTotals_subtotal, calculateTotals_subtotal, hsub]
  · rw [calculateTotals_totalDiscount, calculateTotals_totalDiscount, hdisc]
  · rw [calculateTotals_totalTax, calculateTotals_totalTax, htax]
  · rw [calculateTotals_totalAmount, calculateTotals_totalAmount, hsub, hdisc, htax]
  · rw [calculateTotals_amountPaid, calculateTotals_amountPaid, hpay]
  · rw [calculateTotals_balanceDue, calculateTotals_balanceDue,
      calculateTotals_totalAmount, calculateTotals_totalAmount, hsub, hdisc, htax, hpay]

/-! Status characterization of the settlement state machine. -/

theorem updatePaymentStatus_paid_case (now : ℤ) (c : Invoice)
    (h1 : c.balanceDue ≤ 0 ∧ c.amountPaid > 0) :
    (updatePaymentStatus now c).status = .paid ∧
    (updatePaymentStatus now c).paidDate.isSome = true ∧
    ∀ it ∈ (updatePaymentStatus now c).items, it.paid = true := by
  unfold updatePaymentStatus
  rw [if_pos h1]
  refine ⟨rfl, ?_, ?_⟩
  · cases c.paidDate <;> rfl
  · exact forceAllPaid_all_paid now c.items

theorem updatePaymentStatus_status_ne_paid (now : ℤ) (c : Invoice)
    (hap : 0 ≤ c.amountPaid) (h1 : ¬(c.balanceDue ≤ 0 ∧ c.amountPaid > 0)) :
    (updatePaymentStatus now c).status ≠ .paid := by
  unfold updatePaymentStatus
  rw [if_neg h1]
  by_cases h2 : c.amountPaid > 0 ∧ c.balanceDue > 0
  · rw [if_pos h2]
    intro hcontra
    exact InvStatus.noConfusion hcontra
  rw [if_neg h2]
  by_cases h3 : c.status = .pending ∧ c.dueDate < now
  · rw [if_pos h3]
    intro hcontra
    exact InvStatus.noConfusion hcontra
  rw [if_neg h3]
  by_cases h4 : c.amountPaid = 0 ∧ c.status = .paid
  · rw [if_pos h4]
    intro hcontra
    exact InvStatus.noConfusion hcontra
  rw [if_neg h4]
  intro hst
  rcases lt_or_eq_of_le hap with hpos | hzero
  · rcases lt_or_le 0 c.balanceDue with hbd | hbd
    · exact h2 ⟨hpos, hbd⟩
    · exact h1 ⟨hbd, hpos⟩
  · exact h4 ⟨hzero.symm, hst⟩

/-- Claim C2: after settlement, `status = paid` iff
`balanceDue ≤ 0 ∧ amountPaid > 0`; and whenever that condition holds,
`paidDate` is set and every item is marked paid.  The hypothesis that the
ledger sums to a nonnegative amount reflects the schema constraint
`amountPaid: { min: 0 }`, which makes a negative ledger sum
unpersistable. -/
theorem c2_settlement_paid_iff (now : ℤ) (inv : Invoice)
    (h : 0 ≤ paymentsSum inv.payments) :
    ((calculateTotals now inv).status = .paid ↔
      (calculateTotals now inv).balanceDue ≤ 0 ∧
        (calculateTotals now inv).amountPaid > 0) ∧
    ((calculateTotals now inv).balanceDue ≤ 0 ∧
        (calculateTotals now inv).amountPaid > 0 →
      (calculateTotals now inv).paidDate.isSome = true ∧
      ∀ it ∈ (calculateTotals now inv).items, it.paid = true) := by
  have hap : 0 ≤ (computeTotals inv).amountPaid := by
    rw [computeTotals_amountPaid]; exact h
  have hbd : (calculateTotals now inv).balanceDue = (computeTotals inv).balanceDue :=
    updatePaymentStatus_balanceDue now (computeTotals inv)
  have hap2 : (calculateTotals now inv).amountPaid = (computeTotals inv).amountPaid :=
    updatePaymentStatus_amountPaid now (computeTotals inv)
  by_cases h1 : (computeTotals inv).balanceDue ≤ 0 ∧ (computeTotals inv).amountPaid > 0
  · have hp := updatePaymentStatus_paid_case now (computeTotals inv) h1
    constructor
    · constructor
      · intro _
        rw [hbd, hap2]
        exact h1
      · intro _
        exact hp.1
    · intro _
      exact hp.2
  · have hne := updatePaymentStatus_status_ne_paid now (computeTotals inv) hap h1
    constructor
    · constructor
      · intro hst
        exact absurd hst hne
      · intro hcond
        rw [hbd, hap2] at hcond
        exact absurd hcond h1
    · intro hcond
      rw [hbd, hap2] at hcond
      exact absurd hcond h1

/-- A concrete uninsured two-item invoice (10,000 consultation + 20,000
lab test) used by witnesses. -/
def exInvoice : Invoice :=
  { patient := 1
    items := [{ itype := .consultation, descr := "Consultation", quantity := 1,
                unitPrice := 10000, total := 10000 },
              { itype := .lab_test, descr := "Malaria test", quantity := 1,
                unitPrice := 20000, total := 20000 }]
    payments := []
    subtotal := 30000
    totalAmount := 30000
    balanceDue := 30000
    dueDate := 100 }

theorem c2_settlement_paid_iff_witness :
    0 ≤ paymentsSum exInvoice.payments ∧
    ((calculateTotals 5 exInvoice).status = .paid ↔
      (calculateTotals 5 exInvoice).balanceDue ≤ 0 ∧
        (calculateTotals 5 exInvoice).amountPaid > 0) :=
  ⟨by simp [exInvoice, paymentsSum],
    (c2_settlement_paid_iff 5 exInvoice (by simp [exInvoice, paymentsSum])).1⟩

/-- Claim C1: after every mutating operation (create, addItems, payItems,
addPayment, refund ledger append) the derived `amountPaid` equals the
ledger sum and `balanceDue` equals `totalAmount - amountPaid`.  The
hypothesis (the invariant on the incoming invoice) is only needed for the
`payItems` no-op branch, which leaves the invoice untouched. -/
theorem c1_ledger_invariant_after_mutations
    (now dueDate : ℤ) (pid providerId : ℕ) (policyNo : String)
    (hasInsurance : Bool) (data : CreateData) (newItems : List Item)
    (idxs : List ℕ) (pinfo : PaymentInfo) (amount r : ℚ) (m : PayMethod)
    (refNote : String) (inv : Invoice) (h : ledgerInvariant inv) :
    ledgerInvariant (createInvoiceCore now dueDate hasInsurance providerId policyNo data) ∧
    ledgerInvariant (addItemsToInvoice now newItems hasInsurance inv) ∧
    ledgerInvariant (payItems now pid idxs pinfo inv).1 ∧
    ledgerInvariant (addPayment now amount inv) ∧
    ledgerInvariant (appendRefund now m r refNote inv) := by
  refine ⟨saveHook_ledgerInvariant _ _, saveHook_ledgerInvariant _ _, ?_,
    calculateTotals_ledgerInvariant _ _, saveHook_ledgerInvariant _ _⟩
  unfold payItems
  dsimp only
  split
  · exact ⟨h.1, h.2⟩
  · exact calculateTotals_ledgerInvariant _ _

theorem c1_ledger_invariant_witness :
    ledgerInvariant exInvoice ∧ ledgerInvariant (payItems 5 1 [0] {} exInvoice).1 :=
  ⟨by norm_num [ledgerInvariant, exInvoice, paymentsSum],
    (c1_ledger_invariant_after_mutations 5 100 1 0 "" false {} [] [0] {} 0 0
      .cash "" exInvoice
      (by norm_num [ledgerInvariant, exInvoice, paymentsSum])).2.2.1⟩

/-- Claim C6: creating an invoice for a visit that already has one is not
an error and creates nothing: the stored collection is unchanged and the
existing invoice is returned as-is. -/
theorem c6_duplicate_creation_idempotent
    (now dueDate : ℤ) (hasInsurance : Bool) (providerId : ℕ) (policyNo : String)
    (data : CreateData) (db : List Invoice) (vid : ℕ)
    (hv : data.visit = some vid) (hex : ∃ e ∈ db, e.visit = some vid) :
    ∃ e ∈ db, e.visit = some vid ∧
      createInvoiceService now dueDate hasInsurance providerId policyNo data db
        = (db, e) := by
  cases hfind : findByVisit db vid with
  | none =>
    obtain ⟨e0, hmem, hv0⟩ := hex
    have hnone := List.find?_eq_none.mp hfind e0 hmem
    exact absurd (decide_eq_true hv0) hnone
  | some e =>
    have hfind2 : List.find? (fun x : Invoice => decide (x.visit = some vid)) db
        = some e := hfind
    have hmem : e ∈ db := List.mem_of_find?_eq_some hfind2
    have hp := List.find?_some hfind2
    have hev : e.visit = some vid := by simpa using hp
    refine ⟨e, hmem, hev, ?_⟩
    unfold createInvoiceService
    rw [hv]
    dsimp only
    rw [hfind]

def c6exInvoice : Invoice := { exInvoice with visit := some 3 }

/-! Support for the insurance fast path (claim C4). -/

/-- The calculator's aggregate total of an item list
(`subtotal - totalDiscount + totalTax`). -/
def invoiceTotalOf (items : List Item) : ℚ :=
  (items.map itemSubtotalOf).sum - (items.map discountOf).sum + (items.map taxOf).sum

theorem calculateTotals_totalAmount_inv (now : ℤ) (inv : Invoice) :
    (calculateTotals now inv).totalAmount = invoiceTotalOf inv.items := by
  rw [calculateTotals_totalAmount]; rfl

theorem sum_itemTotalOf (items : List Item) :
    (items.map itemTotalOf).sum = invoiceTotalOf items := by
  induction items with
  | nil => simp [invoiceTotalOf]
  | cons a l ih =>
    simp only [invoiceTotalOf, List.map_cons, List.sum_cons] at *
    rw [ih]
    unfold itemTotalOf
    ring

theorem invoiceTotalOf_map (f : Item → Item)
    (hs : ∀ it, itemSubtotalOf (f it) = itemSubtotalOf it)
    (hd : ∀ it, discountOf (f it) = discountOf it)
    (ht : ∀ it, taxOf (f it) = taxOf it) (items : List Item) :
    invoiceTotalOf (items.map f) = invoiceTotalOf items := by
  unfold invoiceTotalOf
  rw [map_comp_eq _ _ hs, map_comp_eq _ _ hd, map_comp_eq _ _ ht]

theorem calculateTotals_items_invoiceTotalOf (now : ℤ) (inv : Invoice) :
    invoiceTotalOf (calculateTotals now inv).items = invoiceTotalOf inv.items := by
  unfold invoiceTotalOf
  rw [calculateTotals_items_map _ now itemSubtotalOf_recalc (itemSubtotalOf_force now),
    calculateTotals_items_map _ now discountOf_recalc (discountOf_force now),
    calculateTotals_items_map _ now taxOf_recalc (taxOf_force now)]

theorem paymentsSum_append (ps qs : List PaymentEntry) :
    paymentsSum (ps ++ qs) = paymentsSum ps + paymentsSum qs := by
  simp [paymentsSum]

theorem paymentsSum_single (p : PaymentEntry) : paymentsSum [p] = p.amount := by
  simp [paymentsSum]

theorem checkOverdueStatus_of_ne (now : ℤ) (inv : Invoice)
    (h : inv.status ≠ .pending) : checkOverdueStatus now inv = inv := by
  unfold checkOverdueStatus
  rw [if_neg]
  intro hc
  exact h hc.1

theorem insSumOf_all_covered (items : List Item)
    (h : ∀ it ∈ items, it.coveredByInsurance = true ∧ it.insuranceApproved = true) :
    insSumOf items = (items.map itemTotalOf).sum := by
  unfold insSumOf
  rw [List.filter_eq_self.mpr]
  intro a ha
  rw [(h a ha).1, (h a ha).2]
  rfl

theorem forall_mem_map {p : Item → Prop} {f : Item → Item} {items : List Item}
    (h : ∀ it ∈ items, p (f it)) : ∀ it ∈ items.map f, p it := by
  intro it hmem
  obtain ⟨x, hx, he⟩ := List.mem_map.mp hmem
  rw [← he]
  exact h x hx

theorem computeTotals_insuranceCoverage_pos (inv : Invoice) (c0 : Coverage)
    (hc : inv.insuranceCoverage = some c0) (hne : c0.coverageAmount ≠ 0) :
    (computeTotals inv).insuranceCoverage =
      some { c0 with coverageAmount := min (insSumOf inv.items) c0.coverageAmount } := by
  unfold computeTotals
  dsimp only
  rw [hc]
  dsimp only
  rw [if_pos hne]

theorem coverage_set_same (c : Coverage) :
    ({ c with coverageAmount := c.coverageAmount } : Coverage) = c := by
  cases c
  rfl

/-- Settlement of a fully insurance-covered invoice whose single ledger
entry matches its (positive) total: it lands on `paid` with a zero
balance and all items paid/covered/approved. -/
theorem saveHook_insured (now : ℤ) (inv1 : Invoice) (T : ℚ)
    (hpay : paymentsSum inv1.payments = T)
    (hT : invoiceTotalOf inv1.items = T)
    (hpos : 0 < T)
    (hcov : ∀ it ∈ inv1.items,
      it.coveredByInsurance = true ∧ it.insuranceApproved = true)
    (c0 : Coverage) (hc0 : inv1.insuranceCoverage = some c0)
    (hc0amt : c0.coverageAmount = T) :
    (saveHook now inv1).status = .paid ∧
    (saveHook now inv1).amountPaid = T ∧
    (saveHook now inv1).totalAmount = T ∧
    (saveHook now inv1).balanceDue = 0 ∧
    (saveHook now inv1).payments = inv1.payments ∧
    (saveHook now inv1).insuranceCoverage = some c0 ∧
    (∀ it ∈ (saveHook now inv1).items,
      it.paid = true ∧ it.coveredByInsurance = true ∧ it.insuranceApproved = true) := by
  have hcap : (computeTotals inv1).amountPaid = T := by
    rw [computeTotals_amountPaid, hpay]
  have hcT : (computeTotals inv1).totalAmount = T := by
    rw [computeTotals_totalAmount]
    exact hT
  have hcbd : (computeTotals inv1).balanceDue = 0 := by
    rw [computeTotals_balanceDue, hcT, hpay]
    ring
  have h1 : (computeTotals inv1).balanceDue ≤ 0 ∧ (computeTotals inv1).amountPaid > 0 :=
    ⟨le_of_eq hcbd, by rw [hcap]; exact hpos⟩
  have hu : updatePaymentStatus now (computeTotals inv1) =
      { computeTotals inv1 with
        status := .paid
        paidDate := match (computeTotals inv1).paidDate with
          | some d => some d | none => some now
        items := forceAllPaid now (computeTotals inv1).items } := by
    unfold updatePaymentStatus
    rw [if_pos h1]
  have hstat : (updatePaymentStatus now (computeTotals inv1)).status = .paid := by
    rw [hu]
  have hover : checkOverdueStatus now (updatePaymentStatus now (computeTotals inv1)) =
      updatePaymentStatus now (computeTotals inv1) := by
    apply checkOverdueStatus_of_ne
    rw [hstat]
    intro hcontra
    exact InvStatus.noConfusion hcontra
  have hsave : saveHook now inv1 = updatePaymentStatus now (computeTotals inv1) := by
    unfold saveHook calculateTotals
    exact hover
  have hins : (computeTotals inv1).insuranceCoverage = some c0 := by
    rw [computeTotals_insuranceCoverage_pos inv1 c0 hc0 (by rw [hc0amt]; exact ne_of_gt hpos)]
    rw [insSumOf_all_covered inv1.items hcov, sum_itemTotalOf, hT, hc0amt, min_self,
      ← hc0amt, coverage_set_same]
  rw [hsave, hu]
  refine ⟨rfl, hcap, hcT, hcbd, computeTotals_payments inv1, hins, ?_⟩
  intro it hmem
  refine ⟨forceAllPaid_all_paid now (computeTotals inv1).items it hmem, ?_⟩
  have hbase : ∀ x ∈ (computeTotals inv1).items,
      x.coveredByInsurance = true ∧ x.insuranceApproved = true := by
    rw [computeTotals_items]
    exact forall_mem_map (fun x hx => hcov x hx)
  unfold forceAllPaid at hmem
  obtain ⟨x, hx, he⟩ := List.mem_map.mp hmem
  have hxp := hbase x hx
  rw [← he, covered_force, approved_force]
  exact hxp

/-- Claim C4 (amended): for an insured patient whose invoice items total a
positive amount, invoice creation ends with every item paid and
covered/approved, exactly one insurance ledger entry over the full total,
status paid, amountPaid = totalAmount, balanceDue = 0, the coverage block
with the generated approval code, and the linked visit moved to In Queue
with the consultation fee marked paid. -/
theorem c4_insured_invoice_auto_paid
    (now dueDate : ℤ) (providerId invId : ℕ) (policyNo : String)
    (data : CreateData) (v : Visit)
    (hT : 0 < invoiceTotalOf data.items) :
    (∀ it ∈ (createInvoiceCore now dueDate true providerId policyNo data).items,
      it.paid = true ∧ it.coveredByInsurance = true ∧ it.insuranceApproved = true) ∧
    (createInvoiceCore now dueDate true providerId policyNo data).payments.map
        (fun p => (p.amount, p.method))
      = [(invoiceTotalOf data.items, PayMethod.insurance)] ∧
    (createInvoiceCore now dueDate true providerId policyNo data).status = .paid ∧
    (createInvoiceCore now dueDate true providerId policyNo data).amountPaid
      = invoiceTotalOf data.items ∧
    (createInvoiceCore now dueDate true providerId policyNo data).totalAmount
      = invoiceTotalOf data.items ∧
    (createInvoiceCore now dueDate true providerId policyNo data).balanceDue = 0 ∧
    (createInvoiceCore now dueDate true providerId policyNo data).insuranceCoverage
      = some { provider := providerId, policyNumber := policyNo,
               coverageAmount := invoiceTotalOf data.items,
               approvalCode := "AUTO-" ++ toString now, covStatus := .approved } ∧
    (updateVisitAfterInvoiceCreation invId
        (createInvoiceCore now dueDate true providerId policyNo data) true v).status
      = .inQueue ∧
    (updateVisitAfterInvoiceCreation invId
        (createInvoiceCore now dueDate true providerId policyNo data) true v).consultationFeePaid
      = true := by
  have h0pay : (calculateTotals now (buildInvoice dueDate data)).payments = [] := by
    rw [calculateTotals_payments]
    rfl
  have h0T : (calculateTotals now (buildInvoice dueDate data)).totalAmount
      = invoiceTotalOf data.items := by
    rw [calculateTotals_totalAmount_inv]
    rfl
  have h0itemsT : invoiceTotalOf (calculateTotals now (buildInvoice dueDate data)).items
      = invoiceTotalOf data.items := by
    rw [calculateTotals_items_invoiceTotalOf]
    rfl
  have hres : createInvoiceCore now dueDate true providerId policyNo data
      = saveHook now (applyInsuranceAutoCoverage now providerId policyNo
          (calculateTotals now (buildInvoice dueDate data))) := rfl
  have hpay : paymentsSum (applyInsuranceAutoCoverage now providerId policyNo
      (calculateTotals now (buildInvoice dueDate data))).payments
      = invoiceTotalOf data.items := by
    show paymentsSum ((calculateTotals now (buildInvoice dueDate data)).payments ++ _)
      = invoiceTotalOf data.items
    rw [h0pay, List.nil_append, paymentsSum_single]
    exact h0T
  have hitems : invoiceTotalOf (applyInsuranceAutoCoverage now providerId policyNo
      (calculateTotals now (buildInvoice dueDate data))).items
      = invoiceTotalOf data.items := by
    show invoiceTotalOf ((calculateTotals now (buildInvoice dueDate data)).items.map
      (coverItem now)) = invoiceTotalOf data.items
    rw [invoiceTotalOf_map (coverItem now)
      (fun it => rfl) (fun it => rfl) (fun it => rfl)]
    exact h0itemsT
  have hcov : ∀ it ∈ (applyInsuranceAutoCoverage now providerId policyNo
      (calculateTotals now (buildInvoice dueDate data))).items,
      it.coveredByInsurance = true ∧ it.insuranceApproved = true := by
    show ∀ it ∈ (calculateTotals now (buildInvoice dueDate data)).items.map
      (coverItem now), it.coveredByInsurance = true ∧ it.insuranceApproved = true
    exact forall_mem_map (fun x _ => ⟨rfl, rfl⟩)
  have hmain := saveHook_insured now
    (applyInsuranceAutoCoverage now providerId policyNo
      (calculateTotals now (buildInvoice dueDate data)))
    (invoiceTotalOf data.items) hpay hitems hT hcov
    { provider := providerId, policyNumber := policyNo
      coverageAmount := (calculateTotals now (buildInvoice dueDate data)).totalAmount
      approvalCode := "AUTO-" ++ toString now, covStatus := .approved }
    rfl h0T
  rw [hres]
  refine ⟨hmain.2.2.2.2.2.2, ?_, hmain.1, hmain.2.1, hmain.2.2.1, hmain.2.2.2.1, ?_, ?_, ?_⟩
  · rw [hmain.2.2.2.2.1]
    show ((calculateTotals now (buildInvoice dueDate data)).payments ++ _).map _ = _
    rw [h0pay, List.nil_append, List.map_cons, List.map_nil]
    rw [show ((calculateTotals now (buildInvoice dueDate data)).totalAmount,
        PayMethod.insurance) = (invoiceTotalOf data.items, PayMethod.insurance) by
      rw [h0T]]
  · rw [hmain.2.2.2.2.2.1, h0T]
  · unfold updateVisitAfterInvoiceCreation
    rfl
  · unfold updateVisitAfterInvoiceCreation
    rfl

theorem c4_insured_invoice_auto_paid_witness :
    0 < invoiceTotalOf exInvoice.items ∧
    (createInvoiceCore 5 100 true 7 "POL-1"
      { patient := 1, visit := some 3, items := exInvoice.items }).status = .paid :=
  ⟨by norm_num [invoiceTotalOf, exInvoice, itemSubtotalOf, discountOf, taxOf],
    (c4_insured_invoice_auto_paid 5 100 7 11 "POL-1"
      { patient := 1, visit := some 3, items := exInvoice.items } {}
      (by norm_num [invoiceTotalOf, exInvoice, itemSubtotalOf, discountOf,
        taxOf])).2.2.1⟩

/-- A creation request for an insured patient whose single item is free
(unit price zero). -/
def c4xData : CreateData :=
  { patient := 2, visit := some 9,
    items := [{ itype := .consultation, descr := "Free consult", quantity := 1,
                unitPrice := 0 }] }

/-- Counterexample to claim C4 as stated: creating an invoice for an
insured patient whose items total zero ends with status `pending`, not
`paid` (the settlement pass sees `amountPaid = 0` on a manually-paid
invoice and reverts it). -/
theorem c4_counterexample :
    (createInvoiceCore 5 10 true 7 "POL" c4xData).status = InvStatus.pending ∧
    (createInvoiceCore 5 10 true 7 "POL" c4xData).status ≠ InvStatus.paid := by
  have h : (createInvoiceCore 5 10 true 7 "POL" c4xData).status = InvStatus.pending := by
    norm_num [createInvoiceCore, buildInvoice, calculateTotals, computeTotals,
      updatePaymentStatus, applyInsuranceAutoCoverage, saveHook, checkOverdueStatus,
      paymentsSum, insSumOf, itemSubtotalOf, discountOf, taxOf, itemTotalOf,
      recalcItem, forceAllPaid, forcePaid, markItem, c4xData]
  refine ⟨h, ?_⟩
  rw [h]
  intro hcontra
  exact InvStatus.noConfusion hcontra

/-! Support for the refund path (claim C5). -/

theorem itemAt_map (f : Item → Item) (items : List Item) (i : ℕ)
    (hi : i < items.length) : itemAt (items.map f) i = f (itemAt items i) := by
  unfold itemAt
  simp [List.getD, List.getElem?_map, List.getElem?_eq_getElem hi]

theorem updatePaymentStatus_partly_case (now : ℤ) (c : Invoice)
    (h : c.amountPaid > 0 ∧ c.balanceDue > 0) :
    (updatePaymentStatus now c).status = .partly := by
  unfold updatePaymentStatus
  rw [if_neg (fun hc => absurd hc.1 (not_le.mpr h.2)), if_pos h]

/-- The persisted state of a save: ledger untouched, all derived money
fields recomputed, items recalculated (plus the rule-3 forcing when the
invoice is settled in full). -/
theorem saveHook_fields (now : ℤ) (inv : Invoice) :
    (saveHook now inv).payments = inv.payments ∧
    (saveHook now inv).amountPaid = paymentsSum inv.payments ∧
    (saveHook now inv).totalAmount = invoiceTotalOf inv.items ∧
    (saveHook now inv).balanceDue = invoiceTotalOf inv.items - paymentsSum inv.payments ∧
    (saveHook now inv).items =
      (if (computeTotals inv).balanceDue ≤ 0 ∧ (computeTotals inv).amountPaid > 0
       then forceAllPaid now (inv.items.map recalcItem)
       else inv.items.map recalcItem) := by
  have hover := checkOverdueStatus_only_status now (calculateTotals now inv)
  have htotA : (saveHook now inv).totalAmount = invoiceTotalOf inv.items := by
    unfold saveHook
    rw [hover.2.2.2.2]
    exact calculateTotals_totalAmount_inv now inv
  refine ⟨?_, ?_, htotA, ?_, ?_⟩
  · unfold saveHook
    rw [hover.1]
    exact calculateTotals_payments now inv
  · unfold saveHook
    rw [hover.2.2.1]
    exact calculateTotals_amountPaid now inv
  · unfold saveHook
    rw [hover.2.2.2.1, calculateTotals_balanceDue, calculateTotals_totalAmount_inv]
  · unfold saveHook
    rw [hover.2.1]
    unfold calculateTotals
    rw [updatePaymentStatus_items, computeTotals_items]

/-- A save on an invoice with a positive ledger short of its total lands
on `partial`. -/
theorem saveHook_partly (now : ℤ) (inv : Invoice)
    (hap : paymentsSum inv.payments > 0)
    (hbd : invoiceTotalOf inv.items - paymentsSum inv.payments > 0) :
    (saveHook now inv).status = .partly := by
  have h2 : (computeTotals inv).amountPaid > 0 ∧ (computeTotals inv).balanceDue > 0 := by
    constructor
    · rw [computeTotals_amountPaid]
      exact hap
    · rw [computeTotals_balanceDue]
      show (computeTotals inv).totalAmount - paymentsSum inv.payments > 0
      rw [computeTotals_totalAmount]
      exact hbd
  have hst : (calculateTotals now inv).status = .partly :=
    updatePaymentStatus_partly_case now (computeTotals inv) h2
  unfold saveHook
  rw [checkOverdueStatus_of_ne now _ (by
    rw [hst]
    intro hcontra
    exact InvStatus.noConfusion hcontra)]
  exact hst

/-- Claim C5 (amended): a refund of `r` with `0 < r < amountPaid` against
a fully paid invoice appends exactly one ledger entry of `-r`, reruns
settlement, decreases `amountPaid` by `r`, increases `balanceDue` by `r`,
yields status `partial` whenever a positive balance results, and leaves
the paid/paidAt flags of every previously paid item unchanged. -/
theorem c5_refund_is_ledger_only
    (now : ℤ) (m : PayMethod) (refNote : String) (r : ℚ) (inv : Invoice)
    (hap : inv.amountPaid = paymentsSum inv.payments)
    (hbd : inv.balanceDue = inv.totalAmount - inv.amountPaid)
    (htot : inv.totalAmount = invoiceTotalOf inv.items)
    (hpaid : inv.status = .paid)
    (hr : 0 < r) (hrlt : r < inv.amountPaid) :
    (appendRefund now m r refNote inv).payments
      = inv.payments ++
          [{ amount := -r, method := m, paidAt := now, reference := refNote }] ∧
    (appendRefund now m r refNote inv).amountPaid = inv.amountPaid - r ∧
    (appendRefund now m r refNote inv).balanceDue = inv.balanceDue + r ∧
    (0 < (appendRefund now m r refNote inv).balanceDue →
      (appendRefund now m r refNote inv).status = .partly) ∧
    (∀ i, i < inv.items.length → (itemAt inv.items i).paid = true →
      (itemAt (appendRefund now m r refNote inv).items i).paid = true ∧
      (itemAt (appendRefund now m r refNote inv).items i).paidAt
        = (itemAt inv.items i).paidAt) := by
  have hfields := saveHook_fields now { inv with payments := inv.payments ++
    [{ amount := -r, method := m, paidAt := now, reference := refNote }] }
  have hpay2 : paymentsSum (inv.payments ++
      [{ amount := -r, method := m, paidAt := now, reference := refNote }])
      = inv.amountPaid - r := by
    rw [paymentsSum_append, paymentsSum_single, hap]
    show paymentsSum inv.payments + -r = paymentsSum inv.payments - r
    ring
  refine ⟨hfields.1, hfields.2.1.trans hpay2, ?_, ?_, ?_⟩
  · have h3 : (appendRefund now m r refNote inv).balanceDue
        = invoiceTotalOf inv.items - paymentsSum (inv.payments ++
            [{ amount := -r, method := m, paidAt := now, reference := refNote }]) :=
      hfields.2.2.2.1
    rw [h3, hpay2, ← htot, hbd]
    ring
  · intro hpos
    have h3 : (appendRefund now m r refNote inv).balanceDue
        = invoiceTotalOf inv.items - paymentsSum (inv.payments ++
            [{ amount := -r, method := m, paidAt := now, reference := refNote }]) :=
      hfields.2.2.2.1
    rw [h3] at hpos
    exact saveHook_partly now _ (by rw [hpay2]; linarith) hpos
  · intro i hi hp
    rw [show (appendRefund now m r refNote inv).items = _ from hfields.2.2.2.2]
    have hmapped : itemAt (inv.items.map recalcItem) i = recalcItem (itemAt inv.items i) :=
      itemAt_map recalcItem inv.items i hi
    have hrp : (recalcItem (itemAt inv.items i)).paid = true := hp
    split
    · unfold forceAllPaid
      have hlen : i < (inv.items.map recalcItem).length := by
        rw [List.length_map]
        exact hi
      rw [itemAt_map (forcePaid now) _ i hlen, hmapped, forcePaid_of_paid now _ hrp]
      exact ⟨hrp, rfl⟩
    · rw [hmapped]
      exact ⟨hrp, rfl⟩

/-- A fully paid 50,000 invoice. -/
def c5xInvoice : Invoice :=
  { patient := 1
    items := [{ itype := .procedureT, descr := "Surgery", quantity := 1,
                unitPrice := 50000, total := 50000, paid := true, paidAt := some 0 }]
    payments := [{ amount := 50000, method := .cash, paidAt := 0 }]
    subtotal := 50000
    totalAmount := 50000
    amountPaid := 50000
    balanceDue := 0
    status := .paid
    dueDate := 100
    paidDate := some 0 }

/-- Counterexample to claim C5 as stated: refunding the full amountPaid
of a fully paid invoice leaves a positive balance but status `pending`
(rule 6 reverts it), not `partial`. -/
theorem c5_counterexample :
    0 < (appendRefund 5 .cash 50000 "refund" c5xInvoice).balanceDue ∧
    (appendRefund 5 .cash 50000 "refund" c5xInvoice).status = InvStatus.pending ∧
    (appendRefund 5 .cash 50000 "refund" c5xInvoice).status ≠ InvStatus.partly := by
  have hbd : 0 < (appendRefund 5 .cash 50000 "refund" c5xInvoice).balanceDue := by
    norm_num [appendRefund, saveHook, calculateTotals, computeTotals,
      updatePaymentStatus, checkOverdueStatus, paymentsSum, insSumOf,
      itemSubtotalOf, discountOf, taxOf, itemTotalOf, recalcItem, forceAllPaid,
      forcePaid, markItem, c5xInvoice]
  have hst : (appendRefund 5 .cash 50000 "refund" c5xInvoice).status
      = InvStatus.pending := by
    norm_num [appendRefund, saveHook, calculateTotals, computeTotals,
      updatePaymentStatus, checkOverdueStatus, paymentsSum, insSumOf,
      itemSubtotalOf, discountOf, taxOf, itemTotalOf, recalcItem, forceAllPaid,
      forcePaid, markItem, c5xInvoice]
  refine ⟨hbd, hst, ?_⟩
  rw [hst]
  intro hcontra
  exact InvStatus.noConfusion hcontra

theorem c5_refund_is_ledger_only_witness :
    (c5xInvoice.amountPaid = paymentsSum c5xInvoice.payments ∧
     c5xInvoice.balanceDue = c5xInvoice.totalAmount - c5xInvoice.amountPaid ∧
     c5xInvoice.totalAmount = invoiceTotalOf c5xInvoice.items ∧
     c5xInvoice.status = .paid ∧ (0 : ℚ) < 5000 ∧ (5000 : ℚ) < c5xInvoice.amountPaid) ∧
    (appendRefund 5 .cash 5000 "partial refund" c5xInvoice).amountPaid
      = c5xInvoice.amountPaid - 5000 :=
  ⟨⟨by norm_num [c5xInvoice, paymentsSum],
    by norm_num [c5xInvoice],
    by norm_num [c5xInvoice, invoiceTotalOf, itemSubtotalOf, discountOf, taxOf],
    rfl, by norm_num, by norm_num [c5xInvoice]⟩,
    (c5_refund_is_ledger_only 5 .cash "partial refund" 5000 c5xInvoice
      (by norm_num [c5xInvoice, paymentsSum])
      (by norm_num [c5xInvoice])
      (by norm_num [c5xInvoice, invoiceTotalOf, itemSubtotalOf, discountOf, taxOf])
      rfl (by norm_num) (by norm_num [c5xInvoice])).2.1⟩

/-! Support for claim C9: no operation inspects the `cancelled` status. -/

theorem calculateTotals_items_congr (now : ℤ) (a b : Invoice)
    (hit : a.items = b.items) (hp : a.payments = b.payments) :
    (calculateTotals now a).items = (calculateTotals now b).items := by
  unfold calculateTotals
  rw [updatePaymentStatus_items, updatePaymentStatus_items]
  have hbd : (computeTotals a).balanceDue = (computeTotals b).balanceDue := by
    rw [computeTotals_balanceDue, computeTotals_balanceDue, computeTotals_totalAmount,
      computeTotals_totalAmount, hit, hp]
  have hap2 : (computeTotals a).amountPaid = (computeTotals b).amountPaid := by
    rw [computeTotals_amountPaid, computeTotals_amountPaid, hp]
  rw [hbd, hap2, computeTotals_items, computeTotals_items, hit]

theorem payItems_status_congr (now : ℤ) (pid : ℕ) (idxs : List ℕ)
    (pinfo : PaymentInfo) (inv : Invoice) (s : InvStatus) :
    (payItems now pid idxs pinfo { inv with status := s }).1.items
      = (payItems now pid idxs pinfo inv).1.items ∧
    (payItems now pid idxs pinfo { inv with status := s }).1.payments
      = (payItems now pid idxs pinfo inv).1.payments ∧
    (payItems now pid idxs pinfo { inv with status := s }).2
      = (payItems now pid idxs pinfo inv).2 := by
  unfold payItems
  dsimp only
  by_cases h : (payItemsMark now inv.items idxs).2 = 0
  · rw [if_pos h, if_pos h]
    exact ⟨rfl, rfl, rfl⟩
  · rw [if_neg h, if_neg h]
    refine ⟨?_, ?_, rfl⟩
    · exact calculateTotals_items_congr now _ _ rfl rfl
    · rw [calculateTotals_payments, calculateTotals_payments]

theorem addPayment_status_congr (now : ℤ) (amount : ℚ) (inv : Invoice)
    (s : InvStatus) :
    (addPayment now amount { inv with status := s }).items
      = (addPayment now amount inv).items ∧
    (addPayment now amount { inv with status := s }).payments
      = (addPayment now amount inv).payments := by
  unfold addPayment
  dsimp only
  constructor
  · exact calculateTotals_items_congr now _ _ rfl rfl
  · rw [calculateTotals_payments, calculateTotals_payments]

/-- Claim C9 (amended): the code has no cancelled-state guard.  `payItems`
and `addPayment` treat a cancelled invoice exactly as a pending one
(identical items, ledger and returned amount), and a cancelled invoice
with a chargeable requested item is genuinely mutated (one ledger entry
is appended). -/
theorem c9_cancelled_invoice_not_guarded (now : ℤ) (pid : ℕ) (idxs : List ℕ)
    (pinfo : PaymentInfo) (amount : ℚ) (inv : Invoice) :
    ((payItems now pid idxs pinfo { inv with status := .cancelled }).1.items
       = (payItems now pid idxs pinfo { inv with status := .pending }).1.items ∧
     (payItems now pid idxs pinfo { inv with status := .cancelled }).1.payments
       = (payItems now pid idxs pinfo { inv with status := .pending }).1.payments ∧
     (payItems now pid idxs pinfo { inv with status := .cancelled }).2
       = (payItems now pid idxs pinfo { inv with status := .pending }).2) ∧
    ((addPayment now amount { inv with status := .cancelled }).items
       = (addPayment now amount { inv with status := .pending }).items ∧
     (addPayment now amount { inv with status := .cancelled }).payments
       = (addPayment now amount { inv with status := .pending }).payments) ∧
    ((payItemsMark now inv.items idxs).2 ≠ 0 →
      (payItems now pid idxs pinfo { inv with status := .cancelled }).1.payments.length
        = inv.payments.length + 1) := by
  have hc := payItems_status_congr now pid idxs pinfo inv .cancelled
  have hpnd := payItems_status_congr now pid idxs pinfo inv .pending
  have hac := addPayment_status_congr now amount inv .cancelled
  have hapnd := addPayment_status_congr now amount inv .pending
  refine ⟨⟨hc.1.trans hpnd.1.symm, hc.2.1.trans hpnd.2.1.symm,
    hc.2.2.trans hpnd.2.2.symm⟩,
    ⟨hac.1.trans hapnd.1.symm, hac.2.trans hapnd.2.symm⟩, ?_⟩
  intro hnz
  rw [hc.2.1]
  unfold payItems
  dsimp only
  rw [if_neg hnz, calculateTotals_payments]
  exact List.length_append _ _

/-- A concrete cancelled invoice with one unpaid 5,000 item. -/
def c9xInvoice : Invoice :=
  { patient := 4
    items := [{ itype := .medication, descr := "Drug", quantity := 1,
                unitPrice := 5000, total := 5000 }]
    payments := []
    subtotal := 5000
    totalAmount := 5000
    balanceDue := 5000
    status := .cancelled
    dueDate := 100 }

/-- Counterexample to claim C9 as stated: paying items of a cancelled
invoice is not rejected — the invoice is mutated and even resurrected to
status `paid`. -/
theorem c9_counterexample :
    (payItems 5 1 [0] {} c9xInvoice).1 ≠ c9xInvoice ∧
    (payItems 5 1 [0] {} c9xInvoice).1.status = InvStatus.paid := by
  have hst : (payItems 5 1 [0] {} c9xInvoice).1.status = InvStatus.paid := by
    norm_num [payItems, payItemsMark, stampPaymentId, markItem, calculateTotals,
      computeTotals, updatePaymentStatus, paymentsSum, insSumOf, itemSubtotalOf,
      discountOf, taxOf, itemTotalOf, recalcItem, forceAllPaid, forcePaid,
      c9xInvoice]
  refine ⟨?_, hst⟩
  intro heq
  rw [heq] at hst
  exact InvStatus.noConfusion hst

theorem c9_cancelled_invoice_witness :
    (payItemsMark 5 c9xInvoice.items [0]).2 ≠ 0 ∧
    (payItems 5 1 [0] {} { c9xInvoice with status := .cancelled }).1.payments.length
      = c9xInvoice.payments.length + 1 :=
  ⟨by norm_num [payItemsMark, markItem, c9xInvoice],
    (c9_cancelled_invoice_not_guarded 5 1 [0] {} 0 c9xInvoice).2.2
      (by norm_num [payItemsMark, markItem, c9xInvoice])⟩

/-! Support for claim C8: a declarative characterization of the greedy
walk of `addPayment`. -/

/-- Running total of the unpaid items among the first `i` items. -/
def upSum (items : List Item) (i : ℕ) : ℚ :=
  (((items.take i).filter (fun it => !it.paid)).map (fun it => it.total)).sum

/-- Declarative greedy criterion: `addPayment amount` fully pays item `i`
iff the item is unpaid, the unpaid running total through `i` fits within
`amount`, and the remainder before `i` is still positive. -/
def greedyHit (amount : ℚ) (items : List Item) (i : ℕ) : Prop :=
  (itemAt items i).paid = false ∧
  upSum items (i + 1) ≤ amount ∧ upSum items i < amount

instance (amount : ℚ) (items : List Item) (i : ℕ) :
    Decidable (greedyHit amount items i) := by
  unfold greedyHit
  infer_instance

/-- The indices fully paid by `addPayment amount`, in ascending order. -/
def greedyIdxs (amount : ℚ) (items : List Item) : List ℕ :=
  (List.range items.length).filter (fun i => decide (greedyHit amount items i))

theorem upSum_zero (items : List Item) : upSum items 0 = 0 := rfl

theorem upSum_cons_succ (it : Item) (rest : List Item) (j : ℕ) :
    upSum (it :: rest) (j + 1) = (if it.paid then 0 else it.total) + upSum rest j := by
  unfold upSum
  rw [List.take_succ_cons, List.filter_cons]
  by_cases hp : it.paid
  · simp [hp]
  · simp [hp]

theorem upSum_nonneg (items : List Item)
    (hnn : ∀ it ∈ items, 0 ≤ it.total) (i : ℕ) : 0 ≤ upSum items i := by
  unfold upSum
  apply List.sum_nonneg
  intro x hx
  obtain ⟨it, hit, he⟩ := List.mem_map.mp hx
  have hmem : it ∈ items :=
    List.take_subset i items (List.mem_of_mem_filter hit)
  rw [← he]
  exact hnn it hmem

theorem itemAt_cons_succ (it : Item) (rest : List Item) (j : ℕ) :
    itemAt (it :: rest) (j + 1) = itemAt rest j := rfl

theorem itemAt_cons_zero (it : Item) (rest : List Item) :
    itemAt (it :: rest) 0 = it := rfl

theorem greedyHit_cons_zero_paid {it : Item} (hp : it.paid = true)
    (r : ℚ) (rest : List Item) : ¬greedyHit r (it :: rest) 0 := by
  unfold greedyHit
  rw [itemAt_cons_zero]
  intro h
  rw [hp] at h
  exact Bool.noConfusion h.1

theorem greedyHit_cons_succ_paid {it : Item} (hp : it.paid = true)
    (r : ℚ) (rest : List Item) (j : ℕ) :
    greedyHit r (it :: rest) (j + 1) ↔ greedyHit r rest j := by
  unfold greedyHit
  rw [itemAt_cons_succ, upSum_cons_succ it rest (j + 1), upSum_cons_succ it rest j,
    if_pos hp, zero_add, zero_add]

theorem greedyHit_cons_zero_unpaid {it : Item} (hp : it.paid = false)
    (r : ℚ) (rest : List Item) :
    greedyHit r (it :: rest) 0 ↔ (it.total ≤ r ∧ 0 < r) := by
  unfold greedyHit
  rw [itemAt_cons_zero, upSum_zero, upSum_cons_succ it rest 0,
    if_neg (by rw [hp]; exact Bool.noConfusion), upSum_zero, add_zero]
  constructor
  · rintro ⟨_, h2, h3⟩
    exact ⟨h2, h3⟩
  · rintro ⟨h2, h3⟩
    exact ⟨hp, h2, h3⟩

theorem greedyHit_cons_succ_unpaid {it : Item} (hp : it.paid = false)
    (r : ℚ) (rest : List Item) (j : ℕ) :
    greedyHit r (it :: rest) (j + 1) ↔ greedyHit (r - it.total) rest j := by
  unfold greedyHit
  rw [itemAt_cons_succ, upSum_cons_succ it rest (j + 1), upSum_cons_succ it rest j,
    if_neg (by rw [hp]; exact Bool.noConfusion)]
  constructor
  · rintro ⟨h1, h2, h3⟩
    refine ⟨h1, by linarith, by linarith⟩
  · rintro ⟨h1, h2, h3⟩
    refine ⟨h1, by linarith, by linarith⟩

theorem greedyIdxs_of_nohit (r : ℚ) (items : List Item)
    (h : ∀ i, ¬greedyHit r items i) : greedyIdxs r items = [] := by
  unfold greedyIdxs
  rw [List.filter_eq_nil_iff]
  intro a _
  simpa using h a

theorem greedyIdxs_cons_paid {it : Item} (hp : it.paid = true)
    (r : ℚ) (rest : List Item) :
    greedyIdxs r (it :: rest) = (greedyIdxs r rest).map (fun j => j + 1) := by
  unfold greedyIdxs
  rw [show (it :: rest).length = rest.length + 1 from rfl, List.range_succ_eq_map,
    List.filter_cons]
  rw [decide_eq_false (greedyHit_cons_zero_paid hp r rest)]
  simp only [Bool.false_eq_true, if_false, List.filter_map]
  have hcongr : List.filter
      ((fun i => decide (greedyHit r (it :: rest) i)) ∘ Nat.succ)
      (List.range rest.length)
      = List.filter (fun j => decide (greedyHit r rest j))
          (List.range rest.length) := by
    apply List.filter_congr
    intro j _
    simp only [Function.comp_apply, Nat.succ_eq_add_one]
    apply decide_eq_decide.mpr
    exact greedyHit_cons_succ_paid hp r rest j
  rw [hcongr]

theorem greedyIdxs_cons_unpaid_cov {it : Item} (hp : it.paid = false)
    (r : ℚ) (rest : List Item) (hcov : it.total ≤ r) (hrpos : 0 < r) :
    greedyIdxs r (it :: rest)
      = 0 :: (greedyIdxs (r - it.total) rest).map (fun j => j + 1) := by
  unfold greedyIdxs
  rw [show (it :: rest).length = rest.length + 1 from rfl, List.range_succ_eq_map,
    List.filter_cons]
  rw [decide_eq_true ((greedyHit_cons_zero_unpaid hp r rest).mpr ⟨hcov, hrpos⟩)]
  simp only [if_true, List.filter_map]
  have hcongr : List.filter
      ((fun i => decide (greedyHit r (it :: rest) i)) ∘ Nat.succ)
      (List.range rest.length)
      = List.filter (fun j => decide (greedyHit (r - it.total) rest j))
          (List.range rest.length) := by
    apply List.filter_congr
    intro j _
    simp only [Function.comp_apply, Nat.succ_eq_add_one]
    apply decide_eq_decide.mpr
    exact greedyHit_cons_succ_unpaid hp r rest j
  rw [hcongr]

theorem upSum_le_succ (items : List Item)
    (hnn : ∀ it ∈ items, 0 ≤ it.total) (j : ℕ) :
    upSum items j ≤ upSum items (j + 1) := by
  unfold upSum
  rw [List.take_succ, List.filter_append, List.map_append, List.sum_append]
  have h : 0 ≤ (((items[j]?.toList).filter (fun it => !it.paid)).map
      (fun it => it.total)).sum := by
    apply List.sum_nonneg
    intro x hx
    obtain ⟨it, hit, he⟩ := List.mem_map.mp hx
    have h1 : it ∈ items[j]?.toList := List.mem_of_mem_filter hit
    have h2 : it ∈ items := by
      cases hg : items[j]? with
      | none => rw [hg] at h1; exact absurd h1 (List.not_mem_nil it)
      | some a =>
        rw [hg] at h1
        have hia : it = a := by simpa using h1
        rw [hia]
        have hg2 : items.get? j = some a := by
          rw [List.get?_eq_getElem?]
          exact hg
        exact List.get?_mem hg2
    rw [← he]
    exact hnn it h2
  linarith

theorem upSum_mono (items : List Item)
    (hnn : ∀ it ∈ items, 0 ≤ it.total) {k m : ℕ} (h : k ≤ m) :
    upSum items k ≤ upSum items m := by
  induction h with
  | refl => exact le_refl _
  | step h2 ih => exact le_trans ih (upSum_le_succ items hnn _)

/-- The greedy walk of `addPayment` equals the declarative per-index
greedy criterion, and collects exactly `greedyIdxs`. -/
theorem addPaymentGo_spec (now : ℤ) :
    ∀ (items : List Item) (r : ℚ), (∀ it ∈ items, 0 ≤ it.total) →
      (addPaymentGo now r items).1.length = items.length ∧
      (∀ i, i < items.length →
        itemAt (addPaymentGo now r items).1 i
          = (if greedyHit r items i then markItem now (itemAt items i)
             else itemAt items i)) ∧
      (addPaymentGo now r items).2 = greedyIdxs r items := by
  intro items
  induction items with
  | nil =>
    intro r _
    refine ⟨rfl, ?_, rfl⟩
    intro i hi
    exact absurd hi (Nat.not_lt_zero i)
  | cons it rest ih =>
    intro r hnn
    have hnnrest : ∀ x ∈ rest, 0 ≤ x.total :=
      fun x hx => hnn x (List.mem_cons_of_mem it hx)
    unfold addPaymentGo
    by_cases hr : r ≤ 0
    · rw [if_pos hr]
      have hnohit : ∀ i, ¬greedyHit r (it :: rest) i := by
        intro i hcontra
        have h1 := hcontra.2.2
        have h2 := upSum_nonneg (it :: rest) hnn i
        linarith
      refine ⟨rfl, ?_, (greedyIdxs_of_nohit r (it :: rest) hnohit).symm⟩
      intro i hi
      rw [if_neg (hnohit i)]
    · rw [if_neg hr]
      have hrpos : 0 < r := lt_of_not_ge hr
      by_cases hp : it.paid
      · rw [if_pos hp]
        obtain ⟨ihlen, ihchar, ihidxs⟩ := ih r hnnrest
        dsimp only
        refine ⟨by simpa using ihlen, ?_, ?_⟩
        · intro i hi
          cases i with
          | zero =>
            rw [if_neg (greedyHit_cons_zero_paid hp r rest)]
            rfl
          | succ j =>
            have hj : j < rest.length := Nat.lt_of_succ_lt_succ hi
            rw [itemAt_cons_succ, itemAt_cons_succ,
              if_congr (greedyHit_cons_succ_paid hp r rest j) rfl rfl]
            exact ihchar j hj
        · rw [ihidxs, greedyIdxs_cons_paid hp r rest]
      · rw [if_neg hp]
        have hpf : it.paid = false := Bool.eq_false_iff.mpr hp
        by_cases hcov : it.total ≤ r
        · rw [if_pos hcov]
          obtain ⟨ihlen, ihchar, ihidxs⟩ := ih (r - it.total) hnnrest
          dsimp only
          refine ⟨by simpa using ihlen, ?_, ?_⟩
          · intro i hi
            cases i with
            | zero =>
              rw [if_pos ((greedyHit_cons_zero_unpaid hpf r rest).mpr ⟨hcov, hrpos⟩)]
              rfl
            | succ j =>
              have hj : j < rest.length := Nat.lt_of_succ_lt_succ hi
              rw [itemAt_cons_succ, itemAt_cons_succ,
                if_congr (greedyHit_cons_succ_unpaid hpf r rest j) rfl rfl]
              exact ihchar j hj
          · rw [ihidxs, greedyIdxs_cons_unpaid_cov hpf r rest hcov hrpos]
        · rw [if_neg hcov]
          have hcovlt : r < it.total := lt_of_not_ge hcov
          have hnohit : ∀ i, ¬greedyHit r (it :: rest) i := by
            intro i
            cases i with
            | zero =>
              rw [greedyHit_cons_zero_unpaid hpf r rest]
              rintro ⟨h1, _⟩
              exact hcov h1
            | succ j =>
              rw [greedyHit_cons_succ_unpaid hpf r rest j]
              intro hcontra
              have h1 := hcontra.2.2
              have h2 := upSum_nonneg rest hnnrest j
              linarith
          refine ⟨rfl, ?_, (greedyIdxs_of_nohit r (it :: rest) hnohit).symm⟩
          intro i hi
          rw [if_neg (hnohit i)]

/-- Claim C8: `addPayment(amount)` walks the items in index order, fully
pays each not-yet-paid item that the remaining (positive) amount covers,
stops at the first unpaid item the remainder cannot fully cover — never
skipping an unpaid item and never part-paying one — appends one ledger
entry of the full amount carrying exactly the fully paid indices, and
re-runs settlement on that state. -/
theorem c8_addPayment_greedy (now : ℤ) (amount : ℚ) (inv : Invoice)
    (h0 : 0 ≤ amount) (hnn : ∀ it ∈ inv.items, 0 ≤ it.total) :
    (addPayment now amount inv).payments
      = inv.payments ++ [{ amount := amount, method := .cash, paidAt := now,
                           reference := "Legacy payment",
                           itemIndices := greedyIdxs amount inv.items }] ∧
    ((addPaymentGo now amount inv.items).1.length = inv.items.length ∧
      ∀ i, i < inv.items.length →
        itemAt (addPaymentGo now amount inv.items).1 i
          = (if greedyHit amount inv.items i
             then markItem now (itemAt inv.items i) else itemAt inv.items i)) ∧
    (addPaymentGo now amount inv.items).2 = greedyIdxs amount inv.items ∧
    (∀ i j, greedyHit amount inv.items i → j < i →
      (itemAt inv.items j).paid = false → greedyHit amount inv.items j) ∧
    addPayment now amount inv
      = calculateTotals now { inv with
          items := (addPaymentGo now amount inv.items).1
          payments := inv.payments ++
            [{ amount := amount, method := .cash, paidAt := now,
               reference := "Legacy payment",
               itemIndices := (addPaymentGo now amount inv.items).2 }] } := by
  obtain ⟨hlen, hchar, hidxs⟩ := addPaymentGo_spec now inv.items amount hnn
  refine ⟨?_, ⟨hlen, hchar⟩, hidxs, ?_, rfl⟩
  · show (calculateTotals now { inv with
      items := (addPaymentGo now amount inv.items).1
      payments := inv.payments ++
        [{ amount := amount, method := .cash, paidAt := now,
           reference := "Legacy payment",
           itemIndices := (addPaymentGo now amount inv.items).2 }] }).payments = _
    rw [calculateTotals_payments]
    show inv.payments ++ _ = inv.payments ++ _
    rw [hidxs]
  · intro i j hi hj hunpaid
    have h1 : j + 1 ≤ i := hj
    have h2 : upSum inv.items (j + 1) ≤ upSum inv.items i :=
      upSum_mono inv.items hnn h1
    have h3 : upSum inv.items i < amount := hi.2.2
    have h4 : upSum inv.items j ≤ upSum inv.items (j + 1) :=
      upSum_le_succ inv.items hnn j
    exact ⟨hunpaid, by linarith, by linarith⟩

theorem c8_addPayment_greedy_witness :
    ((0 : ℚ) ≤ 10000 ∧ ∀ it ∈ exInvoice.items, 0 ≤ it.total) ∧
    (addPayment 5 10000 exInvoice).payments
      = exInvoice.payments ++ [{ amount := 10000, method := .cash, paidAt := 5,
                                 reference := "Legacy payment",
                                 itemIndices := greedyIdxs 10000 exInvoice.items }] :=
  ⟨⟨by norm_num, by
    intro it hmem
    fin_cases hmem <;> norm_num [exInvoice]⟩,
    (c8_addPayment_greedy 5 10000 exInvoice (by norm_num) (by
      intro it hmem
      fin_cases hmem <;> norm_num [exInvoice])).1⟩

/-! Support for claim C3: a declarative characterization of `payItems`. -/

theorem itemAt_of_getElem? {items : List Item} {i : ℕ} {it : Item}
    (h : items[i]? = some it) : itemAt items i = it := by
  simp [itemAt, List.getD, h]

theorem itemAt_set_self {items : List Item} {i : ℕ} (x : Item)
    (h : i < items.length) : itemAt (items.set i x) i = x := by
  simp [itemAt, List.getD, List.getElem?_set_self h]

theorem itemAt_set_ne {items : List Item} {i j : ℕ} (x : Item)
    (h : j ≠ i) : itemAt (items.set i x) j = itemAt items j := by
  simp [itemAt, List.getD, List.getElem?_set_ne (Ne.symm h)]

/-- The set of indices `payItems` actually charges: requested, in range,
and not already paid. -/
def newlyFinset (items : List Item) (idxs : List ℕ) : Finset ℕ :=
  (Finset.range items.length).filter
    (fun i => i ∈ idxs ∧ (itemAt items i).paid = false)

/-- The amount `payItems` charges: the sum of the cached totals of the
newly paid items. -/
def newlySum (items : List Item) (idxs : List ℕ) : ℚ :=
  Finset.sum (newlyFinset items idxs) (fun i => (itemAt items i).total)

theorem mem_newlyFinset {items : List Item} {idxs : List ℕ} {j : ℕ} :
    j ∈ newlyFinset items idxs ↔
      j < items.length ∧ j ∈ idxs ∧ (itemAt items j).paid = false := by
  unfold newlyFinset
  rw [Finset.mem_filter, Finset.mem_range]

theorem newlyFinset_nil (items : List Item) : newlyFinset items [] = ∅ := by
  apply Finset.eq_empty_of_forall_not_mem
  intro j hj
  exact absurd (mem_newlyFinset.mp hj).2.1 (List.not_mem_nil j)

theorem newlySum_nil (items : List Item) : newlySum items [] = 0 := by
  unfold newlySum
  rw [newlyFinset_nil]
  rfl

/-- Dropping a head index that charges nothing (out of range or already
paid) does not change the newly-paid set. -/
theorem newlyFinset_cons_skip {items : List Item} {i : ℕ} (idxs : List ℕ)
    (h : ¬(i < items.length ∧ (itemAt items i).paid = false)) :
    newlyFinset items (i :: idxs) = newlyFinset items idxs := by
  apply Finset.ext
  intro j
  rw [mem_newlyFinset, mem_newlyFinset, List.mem_cons]
  constructor
  · rintro ⟨hj, hji | hji, hu⟩
    · exact absurd ⟨hji ▸ hj, hji ▸ hu⟩ h
    · exact ⟨hj, hji, hu⟩
  · rintro ⟨hj, hji, hu⟩
    exact ⟨hj, Or.inr hji, hu⟩

/-- Charging the head index: the newly-paid set of the remaining indices
over the marked list, plus the head. -/
theorem newlyFinset_cons_hit {items : List Item} {i : ℕ} {it : Item}
    (idxs : List ℕ) (hv : items[i]? = some it) (hp : it.paid = false) :
    newlyFinset items (i :: idxs)
      = insert i (newlyFinset (items.set i (markItem 0 it)) idxs) ∧
    i ∉ newlyFinset (items.set i (markItem 0 it)) idxs := by
  have hlen : i < items.length := by
    by_contra hge
    rw [List.getElem?_eq_none (le_of_not_lt hge)] at hv
    exact Option.noConfusion hv
  have hit : itemAt items i = it := itemAt_of_getElem? hv
  have hlen2 : i < (items.set i (markItem 0 it)).length := by
    rw [List.length_set]
    exact hlen
  have hnotmem : i ∉ newlyFinset (items.set i (markItem 0 it)) idxs := by
    intro hmem
    have h2 := (mem_newlyFinset.mp hmem).2.2
    rw [itemAt_set_self _ hlen] at h2
    exact Bool.noConfusion h2
  refine ⟨?_, hnotmem⟩
  apply Finset.ext
  intro j
  rw [Finset.mem_insert, mem_newlyFinset, mem_newlyFinset, List.mem_cons,
    List.length_set]
  by_cases hji : j = i
  · subst hji
    constructor
    · intro _
      exact Or.inl rfl
    · intro _
      exact ⟨hlen, Or.inl rfl, by rw [hit]; exact hp⟩
  · rw [itemAt_set_ne _ hji]
    constructor
    · rintro ⟨hj, hjm | hjm, hu⟩
      · exact absurd hjm hji
      · exact Or.inr ⟨hj, hjm, hu⟩
    · rintro (hjm | ⟨hj, hjm, hu⟩)
      · exact absurd hjm hji
      · exact ⟨hj, Or.inr hjm, hu⟩

/-- The set of newly paid indices does not depend on the timestamp used
to mark. -/
theorem newlyFinset_set_mark_time (items : List Item) (i : ℕ) (it : Item)
    (now : ℤ) (idxs : List ℕ) :
    newlyFinset (items.set i (markItem now it)) idxs
      = newlyFinset (items.set i (markItem 0 it)) idxs := by
  apply Finset.ext
  intro j
  rw [mem_newlyFinset, mem_newlyFinset, List.length_set, List.length_set]
  by_cases hji : j = i
  · subst hji
    by_cases hlen : j < items.length
    · rw [itemAt_set_self _ hlen, itemAt_set_self _ hlen]
      exact Iff.rfl
    · constructor
      · rintro ⟨hj, _⟩
        exact absurd hj hlen
      · rintro ⟨hj, _⟩
        exact absurd hj hlen
  · rw [itemAt_set_ne _ hji, itemAt_set_ne _ hji]

/-- The marking pass of `payItems`, characterized declaratively: exactly
the requested in-range not-yet-paid items get marked, and the accumulated
amount is the sum of their cached totals. -/
theorem payItemsMark_spec (now : ℤ) :
    ∀ (idxs : List ℕ) (items : List Item),
      (payItemsMark now items idxs).1.length = items.length ∧
      (∀ j, j < items.length →
        itemAt (payItemsMark now items idxs).1 j
          = (if j ∈ idxs ∧ (itemAt items j).paid = false
             then markItem now (itemAt items j) else itemAt items j)) ∧
      (payItemsMark now items idxs).2 = newlySum items idxs := by
  intro idxs
  induction idxs with
  | nil =>
    intro items
    refine ⟨rfl, ?_, (newlySum_nil items).symm⟩
    intro j hj
    rw [if_neg (fun hc => List.not_mem_nil j hc.1)]
    rfl
  | cons i rest ih =>
    intro items
    unfold payItemsMark
    cases hv : items[i]? with
    | none =>
      dsimp only
      have hge : ¬ i < items.length := by
        intro hlt
        rw [List.getElem?_eq_getElem hlt] at hv
        exact Option.noConfusion hv
      obtain ⟨ihlen, ihchar, ihsum⟩ := ih items
      refine ⟨ihlen, ?_, ?_⟩
      · intro j hj
        rw [ihchar j hj]
        apply if_congr _ rfl rfl
        have hne : j ≠ i := fun he => hge (he ▸ hj)
        rw [List.mem_cons]
        constructor
        · rintro ⟨h1, h2⟩
          exact ⟨Or.inr h1, h2⟩
        · rintro ⟨h1 | h1, h2⟩
          · exact absurd h1 hne
          · exact ⟨h1, h2⟩
      · rw [ihsum]
        unfold newlySum
        rw [newlyFinset_cons_skip rest (fun hc => hge hc.1)]
    | some it =>
      dsimp only
      have hlen : i < items.length := by
        by_contra hge
        rw [List.getElem?_eq_none (le_of_not_lt hge)] at hv
        exact Option.noConfusion hv
      have hit : itemAt items i = it := itemAt_of_getElem? hv
      by_cases hp : it.paid
      · rw [if_pos hp]
        obtain ⟨ihlen, ihchar, ihsum⟩ := ih items
        have hip : ¬ (itemAt items i).paid = false := by
          rw [hit, hp]
          exact Bool.noConfusion
        refine ⟨ihlen, ?_, ?_⟩
        · intro j hj
          rw [ihchar j hj]
          apply if_congr _ rfl rfl
          rw [List.mem_cons]
          constructor
          · rintro ⟨h1, h2⟩
            exact ⟨Or.inr h1, h2⟩
          · rintro ⟨h1 | h1, h2⟩
            · exact absurd (h1 ▸ h2) hip
            · exact ⟨h1, h2⟩
        · rw [ihsum]
          unfold newlySum
          rw [newlyFinset_cons_skip rest (fun hc => hip hc.2)]
      · rw [if_neg hp]
        dsimp only
        have hpf : it.paid = false := Bool.eq_false_iff.mpr hp
        obtain ⟨ihlen, ihchar, ihsum⟩ := ih (items.set i (markItem now it))
        have hlen2 : ∀ j, j < items.length →
            j < (items.set i (markItem now it)).length := by
          intro j hj
          rw [List.length_set]
          exact hj
        refine ⟨?_, ?_, ?_⟩
        · rw [ihlen, List.length_set]
        · intro j hj
          rw [ihchar j (hlen2 j hj)]
          by_cases hji : j = i
          · subst hji
            rw [if_neg, if_pos ⟨List.mem_cons_self j rest, by rw [hit]; exact hpf⟩,
              itemAt_set_self _ hlen, hit]
            rintro ⟨_, hu⟩
            rw [itemAt_set_self _ hlen] at hu
            exact Bool.noConfusion hu
          · rw [itemAt_set_ne _ hji]
            apply if_congr _ rfl rfl
            rw [List.mem_cons]
            constructor
            · rintro ⟨h1, h2⟩
              exact ⟨Or.inr h1, h2⟩
            · rintro ⟨h1 | h1, h2⟩
              · exact absurd h1 hji
              · exact ⟨h1, h2⟩
        · rw [ihsum]
          obtain ⟨hins, hnot⟩ := newlyFinset_cons_hit rest hv hpf
          unfold newlySum
          rw [newlyFinset_set_mark_time items i it now rest, hins,
            Finset.sum_insert hnot, hit]
          congr 1
          apply Finset.sum_congr rfl
          intro k hk
          have hki : k ≠ i := by
            intro he
            exact hnot (he ▸ hk)
          rw [itemAt_set_ne _ hki]

/-- The stamping pass of `payItems`: every in-range requested index gets
the shared payment id; everything else is untouched. -/
theorem stampPaymentId_spec (pid : ℕ) :
    ∀ (idxs : List ℕ) (items : List Item),
      (stampPaymentId pid items idxs).length = items.length ∧
      ∀ j, j < items.length →
        itemAt (stampPaymentId pid items idxs) j
          = (if j ∈ idxs then { itemAt items j with paymentId := some pid }
             else itemAt items j) := by
  intro idxs
  induction idxs with
  | nil =>
    intro items
    refine ⟨rfl, ?_⟩
    intro j hj
    rw [if_neg (List.not_mem_nil j)]
    rfl
  | cons i rest ih =>
    intro items
    unfold stampPaymentId
    cases hv : items[i]? with
    | none =>
      dsimp only
      have hge : ¬ i < items.length := by
        intro hlt
        rw [List.getElem?_eq_getElem hlt] at hv
        exact Option.noConfusion hv
      obtain ⟨ihlen, ihchar⟩ := ih items
      refine ⟨ihlen, ?_⟩
      intro j hj
      rw [ihchar j hj]
      apply if_congr _ rfl rfl
      have hne : j ≠ i := fun he => hge (he ▸ hj)
      rw [List.mem_cons]
      constructor
      · exact Or.inr
      · rintro (h1 | h1)
        · exact absurd h1 hne
        · exact h1
    | some it =>
      dsimp only
      have hlen : i < items.length := by
        by_contra hge
        rw [List.getElem?_eq_none (le_of_not_lt hge)] at hv
        exact Option.noConfusion hv
      have hit : itemAt items i = it := itemAt_of_getElem? hv
      obtain ⟨ihlen, ihchar⟩ := ih (items.set i { it with paymentId := some pid })
      have hlen2 : ∀ j, j < items.length →
          j < (items.set i { it with paymentId := some pid }).length := by
        intro j hj
        rw [List.length_set]
        exact hj
      refine ⟨by rw [ihlen, List.length_set], ?_⟩
      intro j hj
      rw [ihchar j (hlen2 j hj)]
      by_cases hji : j = i
      · subst hji
        rw [if_pos (List.mem_cons_self j rest), itemAt_set_self _ hlen, hit]
        by_cases hjr : j ∈ rest
        · rw [if_pos hjr]
        · rw [if_neg hjr]
      · rw [itemAt_set_ne _ hji]
        apply if_congr _ rfl rfl
        rw [List.mem_cons]
        constructor
        · exact Or.inr
        · rintro (h1 | h1)
          · exact absurd h1 hji
          · exact h1

theorem total_markItem (now : ℤ) (it : Item) : (markItem now it).total = it.total := rfl

theorem paid_markItem (now : ℤ) (it : Item) : (markItem now it).paid = true := rfl

theorem itemAt_eq_getElem (items : List Item) (j : ℕ) (hj : j < items.length) :
    itemAt items j = items[j] := by
  simp [itemAt, List.getD, List.getElem?_eq_getElem hj]

theorem itemAt_mem (items : List Item) (j : ℕ) (hj : j < items.length) :
    itemAt items j ∈ items := by
  rw [itemAt_eq_getElem items j hj]
  exact List.getElem_mem hj

theorem payItems_eq_zero_branch (now : ℤ) (pid : ℕ) (idxs : List ℕ)
    (pinfo : PaymentInfo) (inv : Invoice)
    (h : (payItemsMark now inv.items idxs).2 = 0) :
    payItems now pid idxs pinfo inv
      = ({ inv with items := (payItemsMark now inv.items idxs).1 }, 0) := by
  unfold payItems
  dsimp only
  rw [if_pos h]

theorem payItems_eq_pos_branch (now : ℤ) (pid : ℕ) (idxs : List ℕ)
    (pinfo : PaymentInfo) (inv : Invoice)
    (h : ¬(payItemsMark now inv.items idxs).2 = 0) :
    payItems now pid idxs pinfo inv
      = (calculateTotals now { inv with
          items := stampPaymentId pid (payItemsMark now inv.items idxs).1 idxs
          payments := inv.payments ++
            [{ amount := (payItemsMark now inv.items idxs).2,
               method := pinfo.method.getD .cash,
               paidAt := now,
               reference := pinfo.reference.getD
                 ("Payment for " ++ toString idxs.length ++ " item(s)"),
               notes := pinfo.notes,
               itemIndices := idxs }] },
         (payItemsMark now inv.items idxs).2) := by
  unfold payItems
  dsimp only
  rw [if_neg h]

theorem payItems_snd (now : ℤ) (pid : ℕ) (idxs : List ℕ) (pinfo : PaymentInfo)
    (inv : Invoice) :
    (payItems now pid idxs pinfo inv).2 = newlySum inv.items idxs := by
  have hsum := (payItemsMark_spec now idxs inv.items).2.2
  by_cases h : (payItemsMark now inv.items idxs).2 = 0
  · rw [payItems_eq_zero_branch now pid idxs pinfo inv h]
    rw [← hsum, h]
  · rw [payItems_eq_pos_branch now pid idxs pinfo inv h]
    exact hsum

theorem calculateTotals_items_length (now : ℤ) (inv : Invoice) :
    (calculateTotals now inv).items.length = inv.items.length := by
  unfold calculateTotals
  rw [updatePaymentStatus_items, computeTotals_items]
  split
  · show ((inv.items.map recalcItem).map (forcePaid now)).length = _
    rw [List.length_map, List.length_map]
  · rw [List.length_map]

/-- Through a settlement pass: a paid flag never reverts, the payment id
is untouched, and the cached total becomes the calculator's value. -/
theorem calculateTotals_itemAt_fields (now : ℤ) (inv : Invoice) (j : ℕ)
    (hj : j < inv.items.length) :
    ((itemAt inv.items j).paid = true →
      (itemAt (calculateTotals now inv).items j).paid = true) ∧
    (itemAt (calculateTotals now inv).items j).paymentId
      = (itemAt inv.items j).paymentId ∧
    (itemAt (calculateTotals now inv).items j).total
      = itemTotalOf (itemAt inv.items j) := by
  unfold calculateTotals
  rw [updatePaymentStatus_items, computeTotals_items]
  have hmap : itemAt (inv.items.map recalcItem) j = recalcItem (itemAt inv.items j) :=
    itemAt_map recalcItem inv.items j hj
  have hjm : j < (inv.items.map recalcItem).length := by
    rw [List.length_map]
    exact hj
  split
  · unfold forceAllPaid
    rw [itemAt_map (forcePaid now) _ j hjm, hmap]
    refine ⟨fun _ => ?_, ?_, ?_⟩
    · exact paid_force now _
    · rw [paymentId_force]
      rfl
    · rw [total_force]
      rfl
  · rw [hmap]
    exact ⟨fun hp => hp, rfl, rfl⟩

/-- Every index charged by `payItems` ends up marked paid in the
resulting invoice, in both branches of the operation. -/
theorem payItems_paid_after (now : ℤ) (pid : ℕ) (idxs : List ℕ)
    (pinfo : PaymentInfo) (inv : Invoice) :
    ∀ j ∈ newlyFinset inv.items idxs,
      (itemAt (payItems now pid idxs pinfo inv).1.items j).paid = true := by
  intro j hj
  obtain ⟨hjlen, hjm, hju⟩ := mem_newlyFinset.mp hj
  obtain ⟨hmlen, hmchar, _⟩ := payItemsMark_spec now idxs inv.items
  have hmarkedpaid : (itemAt (payItemsMark now inv.items idxs).1 j).paid = true := by
    rw [hmchar j hjlen, if_pos ⟨hjm, hju⟩]
    rfl
  by_cases h : (payItemsMark now inv.items idxs).2 = 0
  · rw [payItems_eq_zero_branch now pid idxs pinfo inv h]
    exact hmarkedpaid
  · rw [payItems_eq_pos_branch now pid idxs pinfo inv h]
    obtain ⟨hslen, hschar⟩ := stampPaymentId_spec pid idxs (payItemsMark now inv.items idxs).1
    have hjmark : j < (payItemsMark now inv.items idxs).1.length := by
      rw [hmlen]
      exact hjlen
    have hstamp : (itemAt (stampPaymentId pid (payItemsMark now inv.items idxs).1 idxs) j).paid
        = true := by
      rw [hschar j hjmark, if_pos hjm]
      exact hmarkedpaid
    have hjlen2 : j < ({ inv with
        items := stampPaymentId pid (payItemsMark now inv.items idxs).1 idxs
        payments := inv.payments ++
          [{ amount := (payItemsMark now inv.items idxs).2,
             method := pinfo.method.getD .cash,
             paidAt := now,
             reference := pinfo.reference.getD
               ("Payment for " ++ toString idxs.length ++ " item(s)"),
             notes := pinfo.notes,
             itemIndices := idxs }] } : Invoice).items.length := by
      show j < (stampPaymentId pid (payItemsMark now inv.items idxs).1 idxs).length
      rw [hslen]
      exact hjmark
    exact (calculateTotals_itemAt_fields now _ j hjlen2).1 hstamp

/-- `payItems` never changes an item's cached total when the invoice's
totals are already the calculator's values. -/
theorem payItems_total_after (now : ℤ) (pid : ℕ) (idxs : List ℕ)
    (pinfo : PaymentInfo) (inv : Invoice)
    (htot : ∀ it ∈ inv.items, it.total = itemTotalOf it) :
    ∀ j, j < inv.items.length →
      (itemAt (payItems now pid idxs pinfo inv).1.items j).total
        = (itemAt inv.items j).total := by
  intro j hj
  obtain ⟨hmlen, hmchar, _⟩ := payItemsMark_spec now idxs inv.items
  have hfin : itemTotalOf (itemAt (payItemsMark now inv.items idxs).1 j)
      = itemTotalOf (itemAt inv.items j) := by
    rw [hmchar j hj]
    split
    · rfl
    · rfl
  by_cases h : (payItemsMark now inv.items idxs).2 = 0
  · rw [payItems_eq_zero_branch now pid idxs pinfo inv h]
    show (itemAt (payItemsMark now inv.items idxs).1 j).total = _
    rw [hmchar j hj]
    split
    · exact total_markItem now _
    · rfl
  · rw [payItems_eq_pos_branch now pid idxs pinfo inv h]
    obtain ⟨hslen, hschar⟩ :=
      stampPaymentId_spec pid idxs (payItemsMark now inv.items idxs).1
    have hjmark : j < (payItemsMark now inv.items idxs).1.length := by
      rw [hmlen]
      exact hj
    have hjlen2 : j < (stampPaymentId pid (payItemsMark now inv.items idxs).1 idxs).length := by
      rw [hslen]
      exact hjmark
    dsimp only
    rw [(calculateTotals_itemAt_fields now _ j hjlen2).2.2]
    show itemTotalOf (itemAt (stampPaymentId pid (payItemsMark now inv.items idxs).1 idxs) j)
      = (itemAt inv.items j).total
    rw [hschar j hjmark]
    have hmem := itemAt_mem inv.items j hj
    split
    · show itemTotalOf (itemAt (payItemsMark now inv.items idxs).1 j) = _
      rw [hfin]
      exact (htot _ hmem).symm
    · rw [hfin]
      exact (htot _ hmem).symm

/-- `payItems` preserves the number of items. -/
theorem payItems_items_length (now : ℤ) (pid : ℕ) (idxs : List ℕ)
    (pinfo : PaymentInfo) (inv : Invoice) :
    (payItems now pid idxs pinfo inv).1.items.length = inv.items.length := by
  have hmlen := (payItemsMark_spec now idxs inv.items).1
  by_cases h : (payItemsMark now inv.items idxs).2 = 0
  · rw [payItems_eq_zero_branch now pid idxs pinfo inv h]
    exact hmlen
  · rw [payItems_eq_pos_branch now pid idxs pinfo inv h]
    dsimp only
    rw [calculateTotals_items_length]
    show (stampPaymentId pid (payItemsMark now inv.items idxs).1 idxs).length = _
    rw [(stampPaymentId_spec pid idxs (payItemsMark now inv.items idxs).1).1, hmlen]

/-- Claim C3 (amended): `payItems` marks exactly the requested in-range
not-yet-paid items as paid and returns the sum of exactly those items'
cached totals.  If every requested in-range index is already paid the
call is an exact no-op returning 0; whenever the charged sum is zero no
ledger entry is appended.  When the sum is nonzero, exactly one ledger
entry is appended whose amount is that sum and whose index list is the
requested list as given, every newly paid item ends paid and stamped with
the shared payment id, and settlement reruns.  A second call with an
overlapping index set charges only the still-unpaid subset, so the two
calls charge each item's total exactly once. -/
theorem c3_payItems_spec (now : ℤ) (pid : ℕ) (idxs : List ℕ)
    (pinfo : PaymentInfo) (inv : Invoice) :
    ((payItemsMark now inv.items idxs).1.length = inv.items.length ∧
     ∀ j, j < inv.items.length →
       itemAt (payItemsMark now inv.items idxs).1 j
         = (if j ∈ idxs ∧ (itemAt inv.items j).paid = false
            then markItem now (itemAt inv.items j) else itemAt inv.items j)) ∧
    (payItems now pid idxs pinfo inv).2 = newlySum inv.items idxs ∧
    ((∀ i ∈ idxs, i < inv.items.length → (itemAt inv.items i).paid = true) →
      payItems now pid idxs pinfo inv = (inv, 0)) ∧
    (newlySum inv.items idxs = 0 →
      (payItems now pid idxs pinfo inv).1.payments = inv.payments) ∧
    (newlySum inv.items idxs ≠ 0 →
      (payItems now pid idxs pinfo inv).1.payments
        = inv.payments ++
          [{ amount := newlySum inv.items idxs,
             method := pinfo.method.getD .cash,
             paidAt := now,
             reference := pinfo.reference.getD
               ("Payment for " ++ toString idxs.length ++ " item(s)"),
             notes := pinfo.notes,
             itemIndices := idxs }] ∧
      ∀ j ∈ newlyFinset inv.items idxs,
        (itemAt (payItems now pid idxs pinfo inv).1.items j).paid = true ∧
        (itemAt (payItems now pid idxs pinfo inv).1.items j).paymentId = some pid) ∧
    ((∀ it ∈ inv.items, it.total = itemTotalOf it) →
      ∀ (now2 : ℤ) (pid2 : ℕ) (idxs2 : List ℕ) (pinfo2 : PaymentInfo),
        Disjoint (newlyFinset inv.items idxs)
          (newlyFinset (payItems now pid idxs pinfo inv).1.items idxs2) ∧
        (payItems now pid idxs pinfo inv).2
          + (payItems now2 pid2 idxs2 pinfo2 (payItems now pid idxs pinfo inv).1).2
          = Finset.sum (newlyFinset inv.items idxs
              ∪ newlyFinset (payItems now pid idxs pinfo inv).1.items idxs2)
              (fun i => (itemAt inv.items i).total)) := by
  obtain ⟨hmlen, hmchar, hmsum⟩ := payItemsMark_spec now idxs inv.items
  refine ⟨⟨hmlen, hmchar⟩, payItems_snd now pid idxs pinfo inv, ?_, ?_, ?_, ?_⟩
  · intro hall
    have hempty : newlyFinset inv.items idxs = ∅ := by
      apply Finset.eq_empty_of_forall_not_mem
      intro j hjmem
      obtain ⟨hjl, hjm, hju⟩ := mem_newlyFinset.mp hjmem
      rw [hall j hjm hjl] at hju
      exact Bool.noConfusion hju
    have hzero : (payItemsMark now inv.items idxs).2 = 0 := by
      rw [hmsum]
      unfold newlySum
      rw [hempty]
      rfl
    have hsame : (payItemsMark now inv.items idxs).1 = inv.items := by
      apply List.ext_getElem
      · exact hmlen
      · intro j h1 h2
        have hj : j < inv.items.length := h2
        rw [← itemAt_eq_getElem _ j h1, ← itemAt_eq_getElem _ j h2, hmchar j hj]
        rw [if_neg]
        rintro ⟨hjm, hju⟩
        rw [hall j hjm hj] at hju
        exact Bool.noConfusion hju
    rw [payItems_eq_zero_branch now pid idxs pinfo inv hzero, hsame]
  · intro hzero
    have hz2 : (payItemsMark now inv.items idxs).2 = 0 := by
      rw [hmsum]
      exact hzero
    rw [payItems_eq_zero_branch now pid idxs pinfo inv hz2]
  · intro hnz
    have hz2 : ¬(payItemsMark now inv.items idxs).2 = 0 := by
      rw [hmsum]
      exact hnz
    constructor
    · rw [payItems_eq_pos_branch now pid idxs pinfo inv hz2]
      dsimp only
      rw [calculateTotals_payments]
      show inv.payments ++ _ = inv.payments ++ _
      rw [hmsum]
    · intro j hjmem
      obtain ⟨hjl, hjm, hju⟩ := mem_newlyFinset.mp hjmem
      refine ⟨payItems_paid_after now pid idxs pinfo inv j hjmem, ?_⟩
      obtain ⟨hslen, hschar⟩ :=
        stampPaymentId_spec pid idxs (payItemsMark now inv.items idxs).1
      have hjmark : j < (payItemsMark now inv.items idxs).1.length := by
        rw [hmlen]
        exact hjl
      have hjlen2 : j < (stampPaymentId pid
          (payItemsMark now inv.items idxs).1 idxs).length := by
        rw [hslen]
        exact hjmark
      rw [payItems_eq_pos_branch now pid idxs pinfo inv hz2]
      dsimp only
      rw [(calculateTotals_itemAt_fields now _ j hjlen2).2.1]
      show (itemAt (stampPaymentId pid (payItemsMark now inv.items idxs).1 idxs) j).paymentId
        = some pid
      rw [hschar j hjmark, if_pos hjm]
  · intro htot now2 pid2 idxs2 pinfo2
    have hdisj : Disjoint (newlyFinset inv.items idxs)
        (newlyFinset (payItems now pid idxs pinfo inv).1.items idxs2) := by
      rw [Finset.disjoint_left]
      intro j hj1 hj2
      have hpaid := payItems_paid_after now pid idxs pinfo inv j hj1
      have hunpaid := (mem_newlyFinset.mp hj2).2.2
      rw [hpaid] at hunpaid
      exact Bool.noConfusion hunpaid
    refine ⟨hdisj, ?_⟩
    rw [payItems_snd now pid idxs pinfo inv,
      payItems_snd now2 pid2 idxs2 pinfo2 (payItems now pid idxs pinfo inv).1]
    unfold newlySum
    rw [Finset.sum_union hdisj]
    congr 1
    apply Finset.sum_congr rfl
    intro j hj2
    have hjl : j < inv.items.length := by
      have h1 := (mem_newlyFinset.mp hj2).1
      rw [payItems_items_length now pid idxs pinfo inv] at h1
      exact h1
    exact payItems_total_after now pid idxs pinfo inv htot j hjl

/-- An invoice whose first item is already paid (covered by the existing
ledger entry) and whose second is not. -/
def c3xInvoice : Invoice :=
  { patient := 3
    items := [{ itype := .consultation, descr := "visit", quantity := 1,
                unitPrice := 100, total := 100, paid := true, paidAt := some 0 },
              { itype := .lab_test, descr := "test", quantity := 1,
                unitPrice := 50, total := 50 }]
    payments := [{ amount := 100, method := .cash, paidAt := 0, itemIndices := [0] }]
    subtotal := 150
    totalAmount := 150
    amountPaid := 100
    balanceDue := 50
    status := .partly
    dueDate := 100 }

/-- Counterexample to claim C3 as stated: requesting indices [0, 1] when
item 0 is already paid charges only item 1 (the paid indices are exactly
index 1), yet the appended ledger entry carries the requested list
[0, 1], not the paid indices [1]. -/
theorem c3_counterexample :
    newlyFinset c3xInvoice.items [0, 1] = {1} ∧
    (payItems 5 7 [0, 1] {} c3xInvoice).1.payments.map (fun p => p.itemIndices)
      = [[0], [0, 1]] ∧
    ([0, 1] : List ℕ) ≠ [1] := by
  refine ⟨by decide, ?_, by decide⟩
  norm_num [payItems, payItemsMark, stampPaymentId, markItem, calculateTotals,
    computeTotals, updatePaymentStatus, checkOverdueStatus, paymentsSum, insSumOf,
    itemSubtotalOf, discountOf, taxOf, itemTotalOf, recalcItem, forceAllPaid,
    forcePaid, c3xInvoice]

theorem c3_payItems_spec_witness :
    newlySum c3xInvoice.items [0, 1] ≠ 0 ∧
    (payItems 5 7 [0, 1] ({} : PaymentInfo) c3xInvoice).1.payments
      = c3xInvoice.payments ++
        [{ amount := newlySum c3xInvoice.items [0, 1],
           method := ({} : PaymentInfo).method.getD .cash,
           paidAt := 5,
           reference := ({} : PaymentInfo).reference.getD
             ("Payment for " ++ toString ([0, 1] : List ℕ).length ++ " item(s)"),
           notes := ({} : PaymentInfo).notes,
           itemIndices := [0, 1] }] := by
  have hw : (payItemsMark 5 c3xInvoice.items [0, 1]).2 = 50 := by
    norm_num [payItemsMark, markItem, c3xInvoice]
  have hsum := (payItemsMark_spec 5 [0, 1] c3xInvoice.items).2.2
  have hne : newlySum c3xInvoice.items [0, 1] ≠ 0 := by
    rw [← hsum, hw]
    norm_num
  exact ⟨hne, ((c3_payItems_spec 5 7 [0, 1] {} c3xInvoice).2.2.2.2.1 hne).1⟩

/-! Support for claim C7: the count-matched order-status projector. -/

/-- Order access with a default, mirroring the guarded array writes. -/
def orderAt (orders : List COrder) (i : ℕ) : COrder := orders.getD i default

/-- Number of orders awaiting payment. -/
def pendingCount (orders : List COrder) : ℕ :=
  orders.countP (fun o => decide (o.status = .pendingPayment))

theorem orderAt_of_getElem? {orders : List COrder} {i : ℕ} {o : COrder}
    (h : orders[i]? = some o) : orderAt orders i = o := by
  simp [orderAt, List.getD, h]

theorem orderAt_eq_getElem (orders : List COrder) (j : ℕ) (hj : j < orders.length) :
    orderAt orders j = orders[j] := by
  simp [orderAt, List.getD, List.getElem?_eq_getElem hj]

theorem orderAt_set_self {orders : List COrder} {i : ℕ} (x : COrder)
    (h : i < orders.length) : orderAt (orders.set i x) i = x := by
  simp [orderAt, List.getD, List.getElem?_set_self h]

theorem orderAt_set_ne {orders : List COrder} {i j : ℕ} (x : COrder)
    (h : j ≠ i) : orderAt (orders.set i x) j = orderAt orders j := by
  simp [orderAt, List.getD, List.getElem?_set_ne (Ne.symm h)]

theorem mem_indexedFrom (orders : List COrder) :
    ∀ (k : ℕ) (p : ℕ × COrder),
      p ∈ indexedFrom k orders ↔
        (k ≤ p.1 ∧ p.1 - k < orders.length ∧ orderAt orders (p.1 - k) = p.2) := by
  induction orders with
  | nil =>
    intro k p
    constructor
    · intro h
      exact absurd h (List.not_mem_nil p)
    · rintro ⟨_, h2, _⟩
      exact absurd h2 (Nat.not_lt_zero _)
  | cons o os ih =>
    intro k p
    unfold indexedFrom
    rw [List.mem_cons, ih (k + 1) p]
    constructor
    · rintro (hp | ⟨h1, h2, h3⟩)
      · subst hp
        refine ⟨le_refl k, ?_, ?_⟩
        · rw [Nat.sub_self]
          exact Nat.succ_pos _
        · rw [Nat.sub_self]
          rfl
      · refine ⟨le_trans (Nat.le_succ k) h1, ?_, ?_⟩
        · have : p.1 - k = (p.1 - (k + 1)) + 1 := by omega
          rw [this]
          exact Nat.succ_lt_succ h2
        · have : p.1 - k = (p.1 - (k + 1)) + 1 := by omega
          rw [this]
          exact h3
    · rintro ⟨h1, h2, h3⟩
      by_cases hk : p.1 = k
      · left
        rw [hk, Nat.sub_self] at h3
        obtain ⟨p1, p2⟩ := p
        simp only at hk h3
        rw [hk, ← h3]
        rfl
      · right
        have hlt : k + 1 ≤ p.1 := by omega
        have heq : p.1 - k = (p.1 - (k + 1)) + 1 := by omega
        rw [heq] at h2 h3
        exact ⟨hlt, Nat.lt_of_succ_lt_succ h2, h3⟩

theorem indexedFrom_map_fst (orders : List COrder) :
    ∀ k : ℕ, (indexedFrom k orders).map Prod.fst = List.range' k orders.length := by
  induction orders with
  | nil => intro k; rfl
  | cons o os ih =>
    intro k
    unfold indexedFrom
    rw [List.map_cons, ih (k + 1), List.length_cons, List.range'_succ]

theorem indexedFrom_filter_snd (q : COrder → Bool) (orders : List COrder) :
    ∀ k : ℕ, (((indexedFrom k orders).filter (fun p => q p.2)).map Prod.snd)
      = orders.filter q := by
  induction orders with
  | nil => intro k; rfl
  | cons o os ih =>
    intro k
    unfold indexedFrom
    rw [List.filter_cons, List.filter_cons]
    by_cases hq : q o
    · simp only [hq, if_true, List.map_cons, ih (k + 1)]
    · simp only [hq, Bool.false_eq_true, if_false, ih (k + 1)]

/-- Descending-by-creation-time ordering on indexed orders. -/
def SortedDesc (l : List (ℕ × COrder)) : Prop :=
  List.Pairwise (fun a b : ℕ × COrder => b.2.created ≤ a.2.created) l

theorem insertDesc_perm (p : ℕ × COrder) :
    ∀ l : List (ℕ × COrder), List.Perm (insertDesc p l) (p :: l) := by
  intro l
  induction l with
  | nil => exact List.Perm.refl _
  | cons q qs ih =>
    unfold insertDesc
    by_cases h : p.2.created < q.2.created
    · rw [if_pos h]
      exact (List.Perm.cons q ih).trans (List.Perm.swap p q qs)
    · rw [if_neg h]

theorem sortDesc_perm : ∀ l : List (ℕ × COrder), List.Perm (sortDesc l) l := by
  intro l
  induction l with
  | nil => exact List.Perm.refl _
  | cons x xs ih =>
    have hx : sortDesc (x :: xs) = insertDesc x (sortDesc xs) := rfl
    rw [hx]
    exact (insertDesc_perm x (sortDesc xs)).trans (ih.cons x)

theorem sortedDesc_insertDesc (p : ℕ × COrder) :
    ∀ l : List (ℕ × COrder), SortedDesc l → SortedDesc (insertDesc p l) := by
  intro l
  induction l with
  | nil =>
    intro _
    exact List.pairwise_singleton _ _
  | cons q qs ih =>
    intro h
    unfold SortedDesc at h
    rw [List.pairwise_cons] at h
    unfold insertDesc SortedDesc
    by_cases hlt : p.2.created < q.2.created
    · rw [if_pos hlt, List.pairwise_cons]
      constructor
      · intro a ha
        rw [(insertDesc_perm p qs).mem_iff, List.mem_cons] at ha
        rcases ha with ha | ha
        · rw [ha]; exact le_of_lt hlt
        · exact h.1 a ha
      · exact ih h.2
    · rw [if_neg hlt, List.pairwise_cons]
      constructor
      · intro a ha
        rw [List.mem_cons] at ha
        rcases ha with ha | ha
        · rw [ha]; exact le_of_not_lt hlt
        · exact le_trans (h.1 a ha) (le_of_not_lt hlt)
      · exact List.Pairwise.cons h.1 h.2

theorem sortDesc_sorted : ∀ l : List (ℕ × COrder), SortedDesc (sortDesc l) := by
  intro l
  induction l with
  | nil => exact List.Pairwise.nil
  | cons x xs ih =>
    have hx : sortDesc (x :: xs) = insertDesc x (sortDesc xs) := rfl
    rw [hx]
    exact sortedDesc_insertDesc x (sortDesc xs) ih

theorem mem_pendingIdx (orders : List COrder) (p : ℕ × COrder) :
    p ∈ pendingIdx orders ↔
      (p.1 < orders.length ∧ orderAt orders p.1 = p.2) ∧
        p.2.status = .pendingPayment := by
  unfold pendingIdx
  rw [List.mem_filter, mem_indexedFrom orders 0 p]
  simp only [Nat.zero_le, true_and, Nat.sub_zero, decide_eq_true_eq]

theorem pendingIdx_length (orders : List COrder) :
    (pendingIdx orders).length = pendingCount orders := by
  have h := indexedFrom_filter_snd
    (fun o => decide (o.status = .pendingPayment)) orders 0
  have hl := congrArg List.length h
  rw [List.length_map] at hl
  unfold pendingCount
  rw [List.countP_eq_length_filter]
  exact hl

theorem pendingIdx_fst_nodup (orders : List COrder) :
    ((pendingIdx orders).map Prod.fst).Nodup := by
  have hsub : (pendingIdx orders).Sublist (indexedFrom 0 orders) :=
    List.filter_sublist _
  have hsubm : ((pendingIdx orders).map Prod.fst).Sublist
      ((indexedFrom 0 orders).map Prod.fst) := hsub.map _
  rw [indexedFrom_map_fst] at hsubm
  exact hsubm.nodup (List.nodup_range' _ _)

theorem chosenIdx_nodup (k : ℕ) (orders : List COrder) :
    (chosenIdx k orders).Nodup := by
  have hperm : ((sortDesc (pendingIdx orders)).map Prod.fst).Nodup := by
    rw [List.Perm.nodup_iff ((sortDesc_perm (pendingIdx orders)).map Prod.fst)]
    exact pendingIdx_fst_nodup orders
  have heq : chosenIdx k orders
      = ((sortDesc (pendingIdx orders)).map Prod.fst).take
          (min k (pendingIdx orders).length) := by
    unfold chosenIdx
    rw [← List.map_take]
  rw [heq]
  exact (List.take_sublist _ _).nodup hperm

theorem chosenIdx_length (k : ℕ) (orders : List COrder) :
    (chosenIdx k orders).length = min k (pendingCount orders) := by
  unfold chosenIdx
  rw [List.length_map, List.length_take,
    (sortDesc_perm (pendingIdx orders)).length_eq, pendingIdx_length]
  omega

theorem mem_chosenIdx (k : ℕ) (orders : List COrder) (i : ℕ) :
    i ∈ chosenIdx k orders ↔
      ∃ p, p ∈ (sortDesc (pendingIdx orders)).take
        (min k (pendingIdx orders).length) ∧ p.1 = i := by
  unfold chosenIdx
  rw [List.mem_map]

theorem foldl_setOrderReady_length (c : List ℕ) :
    ∀ orders : List COrder, (c.foldl setOrderReady orders).length = orders.length := by
  induction c with
  | nil => intro orders; rfl
  | cons i is ih =>
    intro orders
    rw [List.foldl_cons, ih]
    unfold setOrderReady
    cases orders[i]? with
    | none => rfl
    | some o => simp

theorem foldl_setOrderReady_orderAt (c : List ℕ) :
    ∀ (orders : List COrder) (j : ℕ), j < orders.length →
      orderAt (c.foldl setOrderReady orders) j
        = if j ∈ c then { orderAt orders j with status := .ready }
          else orderAt orders j := by
  induction c with
  | nil =>
    intro orders j _
    rw [List.foldl_nil, if_neg (List.not_mem_nil j)]
  | cons i is ih =>
    intro orders j hj
    rw [List.foldl_cons]
    have hlen : (setOrderReady orders i).length = orders.length := by
      unfold setOrderReady
      cases orders[i]? with
      | none => rfl
      | some o => simp
    have hj' : j < (setOrderReady orders i).length := by rw [hlen]; exact hj
    rw [ih (setOrderReady orders i) j hj']
    by_cases hji : j = i
    · subst hji
      have hset : orderAt (setOrderReady orders j) j
          = { orderAt orders j with status := .ready } := by
        unfold setOrderReady
        cases hv : orders[j]? with
        | none =>
          rw [List.getElem?_eq_getElem hj] at hv
          exact Option.noConfusion hv
        | some o =>
          dsimp only
          rw [orderAt_set_self _ hj, orderAt_of_getElem? hv]
      rw [hset, if_pos (List.mem_cons_self j is)]
      by_cases hmem : j ∈ is
      · rw [if_pos hmem]
      · rw [if_neg hmem]
    · have hset : orderAt (setOrderReady orders i) j = orderAt orders j := by
        unfold setOrderReady
        cases orders[i]? with
        | none => rfl
        | some o =>
          dsimp only
          exact orderAt_set_ne _ hji
      rw [hset]
      have hiff : (j ∈ i :: is) ↔ (j ∈ is) := by
        rw [List.mem_cons]
        constructor
        · rintro (h | h)
          · exact absurd h hji
          · exact h
        · exact Or.inr
      by_cases hmem : j ∈ is
      · rw [if_pos hmem, if_pos (hiff.mpr hmem)]
      · rw [if_neg hmem, if_neg (fun hc => hmem (hiff.mp hc))]

theorem advanceOrders_zero (orders : List COrder) :
    advanceOrders 0 orders = orders := by
  unfold advanceOrders
  rw [if_pos (Or.inl rfl)]

/-- The per-array contract of the projector: some duplicate-free index set
`c` of size `min k pending` is advanced from "Pending Payment" to "Pending",
every other slot is untouched, and the advanced orders are the most recently
created among the pending ones. -/
def advanceSpec (k : ℕ) (orig new : List COrder) : Prop :=
  ∃ c : List ℕ,
    c.Nodup ∧
    c.length = min k (pendingCount orig) ∧
    (∀ i ∈ c, i < orig.length ∧ (orderAt orig i).status = .pendingPayment) ∧
    new.length = orig.length ∧
    (∀ j, j < orig.length →
      orderAt new j
        = if j ∈ c then { orderAt orig j with status := .ready }
          else orderAt orig j) ∧
    (∀ i ∈ c, ∀ j, j < orig.length → j ∉ c →
      (orderAt orig j).status = .pendingPayment →
      (orderAt orig j).created ≤ (orderAt orig i).created)

theorem advanceOrders_spec (k : ℕ) (orders : List COrder) :
    advanceSpec k orders (advanceOrders k orders) := by
  unfold advanceOrders
  by_cases h0 : k = 0 ∨ orders.isEmpty
  · rw [if_pos h0]
    refine ⟨[], List.nodup_nil, ?_, ?_, rfl, ?_, ?_⟩
    · rcases h0 with h | h
      · rw [h, List.length_nil]
        exact (Nat.zero_min _).symm
      · have he : orders = [] := List.isEmpty_iff.mp h
        rw [he, List.length_nil]
        have hpc : pendingCount ([] : List COrder) = 0 := rfl
        rw [hpc, Nat.min_zero]
    · intro i hi
      exact absurd hi (List.not_mem_nil i)
    · intro j _
      rw [if_neg (List.not_mem_nil j)]
    · intro i hi
      exact absurd hi (List.not_mem_nil i)
  · rw [if_neg h0]
    refine ⟨chosenIdx k orders, chosenIdx_nodup k orders,
      chosenIdx_length k orders, ?_, foldl_setOrderReady_length _ orders, ?_, ?_⟩
    · intro i hi
      rw [mem_chosenIdx] at hi
      obtain ⟨p, hp, hpi⟩ := hi
      have hps : p ∈ sortDesc (pendingIdx orders) := List.mem_of_mem_take hp
      have hpp : p ∈ pendingIdx orders := (sortDesc_perm _).mem_iff.mp hps
      rw [mem_pendingIdx] at hpp
      subst hpi
      refine ⟨hpp.1.1, ?_⟩
      rw [hpp.1.2]
      exact hpp.2
    · intro j hj
      exact foldl_setOrderReady_orderAt _ orders j hj
    · intro i hi j hj hjc hjp
      rw [mem_chosenIdx] at hi
      obtain ⟨p, hp, hpi⟩ := hi
      have hqmem : ((j, orderAt orders j) : ℕ × COrder) ∈ pendingIdx orders := by
        rw [mem_pendingIdx]
        exact ⟨⟨hj, rfl⟩, hjp⟩
      have hqsort : ((j, orderAt orders j) : ℕ × COrder)
          ∈ sortDesc (pendingIdx orders) :=
        (sortDesc_perm _).mem_iff.mpr hqmem
      have hqdrop : ((j, orderAt orders j) : ℕ × COrder)
          ∈ (sortDesc (pendingIdx orders)).drop
            (min k (pendingIdx orders).length) := by
        have hsplit := List.take_append_drop (min k (pendingIdx orders).length)
          (sortDesc (pendingIdx orders))
        rw [← hsplit, List.mem_append] at hqsort
        rcases hqsort with hq | hq
        · exfalso
          apply hjc
          rw [mem_chosenIdx]
          exact ⟨(j, orderAt orders j), hq, rfl⟩
        · exact hq
      have hsorted : SortedDesc (sortDesc (pendingIdx orders)) := sortDesc_sorted _
      have hsplit := List.take_append_drop (min k (pendingIdx orders).length)
        (sortDesc (pendingIdx orders))
      rw [← hsplit] at hsorted
      unfold SortedDesc at hsorted
      rw [List.pairwise_append] at hsorted
      have hrel := hsorted.2.2 p hp _ hqdrop
      have hpp : p ∈ pendingIdx orders :=
        (sortDesc_perm _).mem_iff.mp (List.mem_of_mem_take hp)
      rw [mem_pendingIdx] at hpp
      rw [← hpi, hpp.1.2]
      exact hrel

/-- C7: `updateVisitOrderStatuses` advances, per clinical order array, exactly
`min(paid items of the matching type, pending orders)` orders from
"Pending Payment" to "Pending", choosing the most recently created pending
orders and leaving every other order untouched; a consultation-only payment
changes no order array at all. -/
theorem c7_visit_order_projection (paidItems : List Item) (v : Visit) :
    advanceSpec
        ((paidItems.filter (fun it => decide (it.itype = .lab_test))).length)
        v.labOrders (updateVisitOrderStatuses paidItems v).labOrders ∧
    advanceSpec
        ((paidItems.filter (fun it => decide (it.itype = .imaging))).length)
        v.radiologyOrders (updateVisitOrderStatuses paidItems v).radiologyOrders ∧
    advanceSpec
        ((paidItems.filter (fun it => decide (it.itype = .medication))).length)
        v.prescriptions (updateVisitOrderStatuses paidItems v).prescriptions ∧
    ((∀ it ∈ paidItems, it.itype = .consultation) →
      updateVisitOrderStatuses paidItems v = v) := by
  refine ⟨advanceOrders_spec _ v.labOrders, advanceOrders_spec _ v.radiologyOrders,
    advanceOrders_spec _ v.prescriptions, ?_⟩
  intro hcons
  have hl : (paidItems.filter (fun it => decide (it.itype = .lab_test))).length = 0 := by
    rw [List.length_eq_zero, List.filter_eq_nil_iff]
    intro it hit
    simp [hcons it hit]
  have hr : (paidItems.filter (fun it => decide (it.itype = .imaging))).length = 0 := by
    rw [List.length_eq_zero, List.filter_eq_nil_iff]
    intro it hit
    simp [hcons it hit]
  have hm : (paidItems.filter (fun it => decide (it.itype = .medication))).length = 0 := by
    rw [List.length_eq_zero, List.filter_eq_nil_iff]
    intro it hit
    simp [hcons it hit]
  unfold updateVisitOrderStatuses
  rw [hl, hr, hm, advanceOrders_zero, advanceOrders_zero, advanceOrders_zero]

theorem c7_visit_order_projection_witness :
    updateVisitOrderStatuses [] {} = ({} : Visit) :=
  (c7_visit_order_projection [] {}).2.2.2
    (fun it hit => absurd hit (List.not_mem_nil it))

theorem c6_duplicate_creation_witness :
    ∃ e ∈ [c6exInvoice], e.visit = some 3 ∧
      createInvoiceService 0 0 false 0 "" { visit := some 3 } [c6exInvoice]
        = ([c6exInvoice], e) :=
  c6_duplicate_creation_idempotent 0 0 false 0 "" { visit := some 3 }
    [c6exInvoice] 3 rfl ⟨c6exInvoice, List.mem_singleton.mpr rfl, rfl⟩

end Segese
